import Mathlib

/-!
Verification of the rad-ecs entity/component store.

The development shallowly embeds the TypeScript sources:
* `src/hashtable.ts` (the revision exposing `countKeys`/`hasValue`, which is
  the one `entity-manager.ts` compiles against),
* `entity.ts` (the revision whose `allComponents` returns `ComponentEntry`
  records, as destructured by `entity-manager.ts`),
* `src/entity-manager.ts`, and
* `src/utils.ts`.

JavaScript objects and `Map`s are modelled as association lists with
insertion-order semantics; JavaScript `Set<number>` is modelled as a
duplicate-free list; runtime constructor identity is modelled by the
constructor name string; a component instance carries its constructor name,
its serialisable data payload, and the digest its `hash()` method returns.
Thrown exceptions are modelled with `Except`; rxjs notifications are modelled
as a list of emitted events (an event is emitted only when the corresponding
subject exists, i.e. when a subscriber has registered).
-/

namespace RadEcs

/-- Association list lookup, mirroring JavaScript object / Map lookup:
the value at the first entry carrying the key, if any. -/
def alookup {α β : Type} [DecidableEq α] : List (α × β) → α → Option β
  | [], _ => none
  | (a, b) :: t, k => if a = k then some b else alookup t k

/-- Association list update, mirroring JavaScript object / Map assignment:
overwrite the first entry carrying the key in place, else append at the end. -/
def aset {α β : Type} [DecidableEq α] : List (α × β) → α → β → List (α × β)
  | [], k, v => [(k, v)]
  | (a, b) :: t, k, v => if a = k then (k, v) :: t else (a, b) :: aset t k v

/-- Association list deletion, mirroring the JavaScript delete operator:
remove the first entry carrying the key. -/
def aerase {α β : Type} [DecidableEq α] : List (α × β) → α → List (α × β)
  | [], _ => []
  | (a, b) :: t, k => if a = k then t else (a, b) :: aerase t k

/-- Insertion into a JavaScript `Set<number>` (`Set.prototype.add`): no effect
when the element is already present, otherwise appended at the end. -/
def sadd (l : List Nat) (n : Nat) : List Nat := if n ∈ l then l else l ++ [n]

/-- Component instance (component.ts): a value of a class extending
`Component extends Hashable`. `ctype` is the name of its constructor
(runtime type identity), `data` its serialisable own fields
(what `JSON.parse(JSON.stringify(c))` captures), and `hashv` the digest
returned by its `hash()` method. -/
structure Component where
  ctype : String
  data : Nat
  hashv : String
deriving DecidableEq, Repr

/-- HashTable (hashtable.ts, the revision used by entity-manager.ts):
maps a hash digest string to a `Set<number>` of entity ids. -/
structure HashTable where
  values : List (String × List Nat)
deriving DecidableEq, Repr

/-- HashTable.add: create the bucket for the digest of the key if absent,
then insert the value into it. -/
def HashTable.add (t : HashTable) (key : Component) (value : Nat) : HashTable :=
  ⟨aset t.values key.hashv (sadd ((alookup t.values key.hashv).getD []) value)⟩

/-- HashTable.get: the ids in the bucket of the digest of the key, or empty. -/
def HashTable.get (t : HashTable) (key : Component) : List Nat :=
  (alookup t.values key.hashv).getD []

/-- HashTable.remove: false when the digest has no bucket; otherwise delete the
value from the bucket, deleting the bucket entirely when it becomes empty. -/
def HashTable.remove (t : HashTable) (key : Component) (value : Nat) : HashTable × Bool :=
  match alookup t.values key.hashv with
  | none => (t, false)
  | some b =>
    let b' := b.erase value
    if b'.length = 0 then (⟨aerase t.values key.hashv⟩, true)
    else (⟨aset t.values key.hashv b'⟩, true)

/-- HashTable.has: whether the digest of the key has a bucket. -/
def HashTable.has (t : HashTable) (key : Component) : Bool :=
  (alookup t.values key.hashv).isSome

/-- HashTable.hasValue: whether the value is a member of the bucket of the key. -/
def HashTable.hasValue (t : HashTable) (key : Component) (value : Nat) : Bool :=
  t.has key && decide (value ∈ (alookup t.values key.hashv).getD [])

/-- HashTable.count: cardinality of the bucket of the key, 0 when absent. -/
def HashTable.count (t : HashTable) (key : Component) : Nat :=
  if t.has key then ((alookup t.values key.hashv).getD []).length else 0

/-- HashTable.countKeys: the number of digests currently tracked. -/
def HashTable.countKeys (t : HashTable) : Nat := t.values.length

/-- Membership of an id in the bucket of a digest. -/
def tblMem (t : HashTable) (d : String) (i : Nat) : Prop :=
  ∃ b, alookup t.values d = some b ∧ i ∈ b

/-- Structural well-formedness of a hash table: digests are distinct and each
bucket is duplicate-free (holds for every table the manager constructs). -/
def HTWF (t : HashTable) : Prop :=
  (t.values.map Prod.fst).Nodup ∧ ∀ p ∈ t.values, (Prod.snd p : List Nat).Nodup

/-- Entity (entity.ts): an id plus a `Map` from constructor identity to the
single component instance of that type, kept in insertion order. -/
structure Entity where
  id : Nat
  comps : List Component
deriving DecidableEq, Repr

/-- One `Map.set` step of the Entity constructor: replace the component with
the same constructor in place, otherwise append at the end. -/
def compsInsert (l : List Component) (c : Component) : List Component :=
  if l.any (fun x => x.ctype = c.ctype) then
    l.map (fun x => if x.ctype = c.ctype then c else x)
  else l ++ [c]

/-- Entity constructor (`new Entity(id, components)`): fold the component list
into the internal map. -/
def Entity.ofList (id : Nat) (cs : List Component) : Entity :=
  ⟨id, cs.foldl compsInsert []⟩

/-- Entity.component, totalised: `some c` where the TS method returns `c`,
`none` where it throws. -/
def Entity.getComp (e : Entity) (t : String) : Option Component :=
  e.comps.find? (fun c => c.ctype = t)

/-- Entity.has for a single constructor. -/
def Entity.hasType (e : Entity) (t : String) : Bool := (e.getComp t).isSome

/-- Entity.allComponents: the `ComponentEntry` records
`{name: constructor name, component}` in map insertion order. -/
def Entity.allComponents (e : Entity) : List (String × Component) :=
  e.comps.map (fun c => (c.ctype, c))

/-- Notification emitted on an rxjs subject. `entityEv` is a message on the
per-entity channel carrying the fresh snapshot (`none` models the
null/undefined payload after entity removal); `compEv` is a `ComponentChange`
message on the per-type channel with optional entity and component fields. -/
inductive Event where
  | entityEv (id : Nat) (e : Option Entity)
  | compEv (ctype : String) (id : Nat) (e : Option Entity) (c : Option Component)
deriving DecidableEq, Repr

/-- EntityManager state (entity-manager.ts). Registrations record for which
entity ids / component types a notification subject exists (a subject is
created when a caller first observes that id or type). -/
structure EntityManager where
  currId : Nat
  entities : List (Nat × Entity)
  entityNameMapping : List (String × Nat)
  componentEntities : List (String × List Nat)
  componentValueEntities : List (String × HashTable)
  entityRegistrations : List Nat
  componentRegistrations : List String
deriving DecidableEq, Repr

/-- EntityManager.init (also the constructor and clear()): everything empty,
id counter at 0. -/
def initEM : EntityManager := ⟨0, [], [], [], [], [], []⟩

/-- EntityManager.housekeepAddComponent: register the id in the presence index
for the component type, add the component to the value index when one is
configured, then notify the entity channel and the component type channel. -/
def housekeepAddComponent (s : EntityManager) (id : Nat) (c : Component) :
    EntityManager × List Event :=
  let t := c.ctype
  let ce := aset s.componentEntities t (sadd ((alookup s.componentEntities t).getD []) id)
  let cve := match alookup s.componentValueEntities t with
    | none => s.componentValueEntities
    | some ht => aset s.componentValueEntities t (ht.add c id)
  let s' := { s with componentEntities := ce, componentValueEntities := cve }
  let ev1 := if id ∈ s.entityRegistrations then [Event.entityEv id (alookup s.entities id)]
    else []
  let ev2 := if t ∈ s.componentRegistrations then
    [Event.compEv t id (alookup s.entities id) (some c)] else []
  (s', ev1 ++ ev2)

/-- EntityManager.housekeepRemoveComponent: delete the id from the presence
index for the type, remove the component from the value index when one is
configured, and when `notify` is set publish on the entity channel and the
component type channel (component field absent). -/
def housekeepRemoveComponent (s : EntityManager) (id : Nat) (c : Component) (notify : Bool) :
    EntityManager × List Event :=
  let t := c.ctype
  let ce := match alookup s.componentEntities t with
    | none => s.componentEntities
    | some ids => aset s.componentEntities t (ids.erase id)
  let cve := match alookup s.componentValueEntities t with
    | none => s.componentValueEntities
    | some ht => aset s.componentValueEntities t (ht.remove c id).1
  let s' := { s with componentEntities := ce, componentValueEntities := cve }
  let evs := if notify then
      (if id ∈ s.entityRegistrations then [Event.entityEv id (alookup s.entities id)] else []) ++
      (if t ∈ s.componentRegistrations then
        [Event.compEv t id (alookup s.entities id) none] else [])
    else []
  (s', evs)

/-- EntityManager._createEntity: build the Entity snapshot, store it, then run
the install housekeeping for each supplied component in order. -/
def mcreateEntity (s : EntityManager) (id : Nat) (cs : List Component) :
    EntityManager × Entity × List Event :=
  let e := Entity.ofList id cs
  let s1 := { s with entities := aset s.entities id e }
  let r := cs.foldl (fun (acc : EntityManager × List Event) c =>
    let p := housekeepAddComponent acc.1 id c
    (p.1, acc.2 ++ p.2)) (s1, [])
  (r.1, e, r.2)

/-- EntityManager.createEntity: allocate the next id (post-increment) and
delegate to `_createEntity`. -/
def createEntity (s : EntityManager) (cs : List Component) :
    EntityManager × Entity × List Event :=
  mcreateEntity { s with currId := s.currId + 1 } s.currId cs

/-- EntityManager.remove: false for an unknown id; otherwise delete the
entity, scrub the id from every presence index set, and run the uninstall
housekeeping (with notification) for each component of the removed snapshot. -/
def removeEntity (s : EntityManager) (id : Nat) : EntityManager × Bool × List Event :=
  match alookup s.entities id with
  | none => (s, false, [])
  | some e =>
    let components := e.allComponents
    let s1 := { s with
      entities := aerase s.entities id
      componentEntities := s.componentEntities.map (fun p => (p.1, p.2.erase id)) }
    let r := components.foldl (fun (acc : EntityManager × List Event) p =>
      let q := housekeepRemoveComponent acc.1 id p.2 true
      (q.1, acc.2 ++ q.2)) (s1, [])
    (r.1, true, r.2)

/-- EntityManager.excludeComponents: the components of the current snapshot of
the entity whose constructors are not in the exclusion list (callers only
invoke this for existing entities). -/
def excludeComponents (s : EntityManager) (id : Nat) (ts : List String) : List Component :=
  match alookup s.entities id with
  | none => []
  | some e => (e.allComponents.filter (fun p => (Prod.snd p).ctype ∉ ts)).map Prod.snd

/-- EntityManager.removeComponent: throws for an unknown entity; false without
side effects when the entity lacks the type; otherwise install a snapshot
without the component and run the uninstall housekeeping. -/
def removeComponent (s : EntityManager) (id : Nat) (t : String) (notify : Bool) :
    Except String (EntityManager × Bool × List Event) :=
  match alookup s.entities id with
  | none => Except.error "Entity with id does not exist!"
  | some e =>
    match e.getComp t with
    | none => Except.ok (s, false, [])
    | some toRemove =>
      let s1 := { s with
        entities := aset s.entities id (Entity.ofList id (excludeComponents s id [t])) }
      let p := housekeepRemoveComponent s1 id toRemove notify
      Except.ok (p.1, true, p.2)

/-- EntityManager.setComponent: throws for an unknown entity; when a component
of the same constructor is present, first run the uninstall sequence for it
with notifications suppressed; then install a snapshot of the remaining
components plus the new one and run the install housekeeping. -/
def setComponent (s : EntityManager) (id : Nat) (c : Component) :
    Except String (EntityManager × List Event) :=
  match alookup s.entities id with
  | none => Except.error "Entity with id does not exist!"
  | some e =>
    let t := c.ctype
    let step := if e.hasType t then
        match removeComponent s id t false with
        | Except.ok (s', _, _) => s'
        | Except.error _ => s
      else s
    let others := excludeComponents step id [t]
    let s2 := { step with entities := aset step.entities id (Entity.ofList id (others ++ [c])) }
    let p := housekeepAddComponent s2 id c
    Except.ok (p.1, p.2)

/-- setIntersect (utils.ts): the members of the left set that the right set
contains, in left insertion order. -/
def setIntersect (left right : List Nat) : List Nat :=
  left.filter (fun n => n ∈ right)

/-- EntityManager.matchingIds: keep the presence index sets of the requested
types that exist; when none is missing and at least one was requested, fold
them with `setIntersect`, otherwise produce the empty list. -/
def matchingIds (s : EntityManager) (types : List String) : List Nat :=
  let working := (types.filter (fun t => (alookup s.componentEntities t).isSome)).map
    (fun t => (alookup s.componentEntities t).getD [])
  if working.length ≠ 0 ∧ working.length = types.length then
    match working with
    | [] => []
    | w :: ws => ws.foldl setIntersect w
  else []

/-- EntityManager.matching: the entity stored under each matching id (the TS
code indexes `this.entities`, which can in principle yield undefined, hence
the Option). -/
def matching (s : EntityManager) (types : List String) : List (Option Entity) :=
  (matchingIds s types).map (fun id => alookup s.entities id)

/-- ComponentIndexingInfo returned by indexBy. -/
structure ComponentIndexingInfo where
  uniqueComponentValues : Nat
  totalComponents : Nat
deriving DecidableEq, Repr

/-- EntityManager.indexBy: scan every entity currently in the presence index
of the type, hashing its component into a fresh value index, then install that
index. `none` models the TypeError the TS code would raise when a presence id
has no stored entity or lacks the component (unreachable through the public
interface). -/
def indexBy (s : EntityManager) (t : String) :
    Option (EntityManager × ComponentIndexingInfo) :=
  let ids := (alookup s.componentEntities t).getD []
  let build := ids.foldl (fun (acc : Option (HashTable × Nat)) id =>
    acc.bind (fun p =>
      match (alookup s.entities id).bind (fun e => e.getComp t) with
      | none => none
      | some c => some (p.1.add c id, p.2 + 1))) (some (⟨[]⟩, 0))
  build.map (fun p =>
    ({ s with componentValueEntities := aset s.componentValueEntities t p.1 },
     ⟨p.1.countKeys, p.2⟩))

/-- EntityManager.matchingIndex: throws when the type of the value has no
configured value index; otherwise the entities stored under the ids in the
bucket of the value digest. -/
def matchingIndex (s : EntityManager) (v : Component) :
    Except String (List (Option Entity)) :=
  match alookup s.componentValueEntities v.ctype with
  | none => Except.error "Attempt to retrieve by component not set up for indexing"
  | some ht => Except.ok ((ht.get v).map (fun id => alookup s.entities id))

/-- EntityManager.getNamed: resolve the alias, then `get` the id, wrapping a
failure of `get` into the stale-alias error. -/
def getNamed (s : EntityManager) (name : String) : Except String Entity :=
  match alookup s.entityNameMapping name with
  | none => Except.error "Entity with name does not exist"
  | some id =>
    match alookup s.entities id with
    | some e => Except.ok e
    | none => Except.error "Named entity points at entity with id, which does not exist!"

/-- EntityManager.removeNamed: false for an unknown alias, otherwise delegate
to `remove`. -/
def removeNamed (s : EntityManager) (name : String) : EntityManager × Bool × List Event :=
  match alookup s.entityNameMapping name with
  | none => (s, false, [])
  | some id => removeEntity s id

/-- ECSData: the serialisation format. Each entity maps the name of each of
its component constructors to that component's plain structural data (the
result of `JSON.parse(JSON.stringify(component))`). -/
structure ECSData where
  indexed : List String
  entities : List (Nat × List (String × Nat))
deriving DecidableEq, Repr

/-- EntityManager.toData: serialise every entity by component name, and list
the names of the types configured for value indexing. -/
def toData (s : EntityManager) : ECSData :=
  ⟨s.componentValueEntities.map Prod.fst,
   s.entities.map (fun p =>
     (p.1, (Prod.snd p).allComponents.map (fun q => (q.1, (Prod.snd q).data))))⟩

/-- Type registry passed to fromData: maps a component constructor name to the
constructor, i.e. a function building a component instance from its plain
structural data. -/
def Registry : Type := String → Option (Nat → Component)

/-- Component rehydration loop of fromData for one entity: instantiate every
component via the registry, failing at the first name the registry lacks. -/
def buildComponents (reg : Registry) : List (String × Nat) → Except String (List Component)
  | [] => Except.ok []
  | (name, d) :: rest =>
    match reg name with
    | some ctor => (buildComponents reg rest).map (fun l => ctor d :: l)
    | none => Except.error ("Component in input data: " ++ name ++ " is not in type index!")

/-- Entity loop of fromData: for each serialised entity, build its components
and `_createEntity` it, tracking the highest id; on a missing type name the
loop stops with the error, keeping the state mutated so far. -/
def importEntities (reg : Registry) :
    List (Nat × List (String × Nat)) → EntityManager → Nat →
      EntityManager × Except String Nat
  | [], s, highest => (s, Except.ok highest)
  | (id, comps) :: rest, s, highest =>
    let highest' := max highest id
    match buildComponents reg comps with
    | Except.error msg => (s, Except.error msg)
    | Except.ok cs => importEntities reg rest (mcreateEntity s id cs).1 highest'

/-- Index loop of fromData: `indexBy` each recorded type name, failing when
the registry lacks the name (or, unreachably for well-formed data, when the
scan would raise). -/
def importIndexes (reg : Registry) :
    List String → EntityManager → EntityManager × Option String
  | [], s => (s, none)
  | name :: rest, s =>
    match reg name with
    | none => (s, some ("Component to index by: " ++ name ++ " is not in type index!"))
    | some _ =>
      match indexBy s name with
      | none => (s, some "TypeError during index scan")
      | some p => importIndexes reg rest p.1

/-- EntityManager.clear (also used by fromData before importing): reset the
whole state to the initial one. -/
def clearEM (_ : EntityManager) : EntityManager := initEM

/-- EntityManager.fromData: clear, recreate every entity from the data,
rebuild every recorded value index, then set the id counter past the
highest imported id. The returned state is the manager state when control
leaves the method, normally or by throw. -/
def fromData (data : ECSData) (reg : Registry) (s : EntityManager) :
    EntityManager × Except String Nat :=
  let s0 := clearEM s
  let r := importEntities reg data.entities s0 0
  match r.2 with
  | Except.error msg => (r.1, Except.error msg)
  | Except.ok highest =>
    match importIndexes reg data.indexed r.1 with
    | (s2, some msg) => (s2, Except.error msg)
    | (s2, none) => ({ s2 with currId := highest + 1 }, Except.ok highest)

/-- Public mutating operations quantified over in the invariant claims. -/
inductive Op where
  | create (cs : List Component)
  | setComp (id : Nat) (c : Component)
  | removeComp (id : Nat) (t : String)
  | removeEnt (id : Nat)
  | indexOp (t : String)
deriving DecidableEq, Repr

/-- State transition of one operation. An operation that throws leaves the
state unchanged (the TS methods validate before mutating), as does the
unreachable TypeError of an indexBy scan. -/
def applyOp (s : EntityManager) : Op → EntityManager
  | Op.create cs => (createEntity s cs).1
  | Op.setComp id c =>
    match setComponent s id c with
    | Except.ok p => p.1
    | Except.error _ => s
  | Op.removeComp id t =>
    match removeComponent s id t true with
    | Except.ok p => p.1
    | Except.error _ => s
  | Op.removeEnt id => (removeEntity s id).1
  | Op.indexOp t =>
    match indexBy s t with
    | some p => p.1
    | none => s

/-- Run a sequence of operations from a state. -/
def run (s : EntityManager) (ops : List Op) : EntityManager := ops.foldl applyOp s

/-- Ids handed out by the create operations of a run, in order. -/
def createdIds : EntityManager → List Op → List Nat
  | _, [] => []
  | s, op :: rest =>
    (match op with
     | Op.create cs => [(createEntity s cs).2.1.id]
     | _ => []) ++ createdIds (applyOp s op) rest

/-- Check of one operation for well-formedness: a create call must not pass
two components of the same constructor. -/
def wfOp : Op → Bool
  | Op.create cs => decide ((cs.map Component.ctype).Nodup)
  | _ => true

/-- A sequence of operations is well formed when no create call passes two
components of the same constructor. -/
def WFOps (ops : List Op) : Prop := ∀ op ∈ ops, wfOp op = true

instance decWFOps : DecidablePred WFOps := fun ops => by
  unfold WFOps
  exact List.decidableBAll _ ops

/-- Membership of an id in the presence index of a component type. -/
def presMem (s : EntityManager) (t : String) (id : Nat) : Prop :=
  ∃ l, alookup s.componentEntities t = some l ∧ id ∈ l

/-- The id has a stored entity currently holding a component of the type. -/
def liveHas (s : EntityManager) (t : String) (id : Nat) : Prop :=
  ∃ e, alookup s.entities id = some e ∧ e.hasType t = true

/-- The id has a stored entity whose component of the type hashes to the
digest. -/
def liveHash (s : EntityManager) (t : String) (d : String) (id : Nat) : Prop :=
  ∃ e c, alookup s.entities id = some e ∧ e.getComp t = some c ∧ c.hashv = d

/-- Internal consistency invariant of a manager state: stored entities are
keyed by their own distinct ids and are one-component-per-type; presence index
sets are duplicate-free and track exactly the live holders of each type; every
configured value index is structurally well formed and its buckets contain
exactly the live entities whose component of the type hashes to the bucket
digest. -/
structure Inv (s : EntityManager) : Prop where
  entKeys : (s.entities.map Prod.fst).Nodup
  entId : ∀ p ∈ s.entities, (Prod.snd p : Entity).id = p.1
  entComps : ∀ p ∈ s.entities, ((Prod.snd p : Entity).comps.map Component.ctype).Nodup
  ceNodup : ∀ p ∈ s.componentEntities, (Prod.snd p : List Nat).Nodup
  pres : ∀ t id, presMem s t id ↔ liveHas s t id
  htwf : ∀ p ∈ s.componentValueEntities, HTWF (Prod.snd p)
  val : ∀ t ht, alookup s.componentValueEntities t = some ht →
    ∀ d id, tblMem ht d id ↔ liveHash s t d id

/-- Id-counter bound: every stored entity id is below the allocation counter. -/
def IdB (s : EntityManager) : Prop := ∀ p ∈ s.entities, p.1 < s.currId

/-- State part of the install-housekeeping loop run by _createEntity. -/
def hkaStates (id : Nat) (s : EntityManager) (cs : List Component) : EntityManager :=
  cs.foldl (fun s c => (housekeepAddComponent s id c).1) s

/-- State part of the uninstall-housekeeping loop run by remove. -/
def hkrStates (id : Nat) (s : EntityManager) (cs : List (String × Component)) : EntityManager :=
  cs.foldl (fun s p => (housekeepRemoveComponent s id (Prod.snd p) true).1) s

def c5State : EntityManager :=
  run initEM [Op.create [Component.mk "Position" 1 "1,1"],
    Op.create [Component.mk "Position" 2 "1,1"],
    Op.create [Component.mk "Position" 3 "2,2"],
    Op.create [Component.mk "Position" 4 "3,3"]]

def c3S : EntityManager :=
  ⟨1, [(0, Entity.mk 0 [Component.mk "Position" 11 "1,1"])], [], [("Position", [0])],
   [("Position", HashTable.mk [("1,1", [0])])], [], []⟩

def c3Reg : Registry :=
  fun n => if n = "Position" then some (fun d => Component.mk "Position" d "1,1") else none

theorem alookup_nil {α β : Type} [DecidableEq α] (k : α) :
    alookup ([] : List (α × β)) k = none := rfl

theorem alookup_cons {α β : Type} [DecidableEq α] (a : α) (b : β) (t : List (α × β)) (k : α) :
    alookup ((a, b) :: t) k = if a = k then some b else alookup t k := rfl

theorem aset_cons {α β : Type} [DecidableEq α] (a : α) (b : β) (t : List (α × β)) (k : α)
    (v : β) : aset ((a, b) :: t) k v = if a = k then (k, v) :: t else (a, b) :: aset t k v := rfl

theorem aerase_cons {α β : Type} [DecidableEq α] (a : α) (b : β) (t : List (α × β)) (k : α) :
    aerase ((a, b) :: t) k = if a = k then t else (a, b) :: aerase t k := rfl

theorem nodup_append_singleton {α : Type} {l : List α} {x : α} (h : l.Nodup) (hx : x ∉ l) :
    (l ++ [x]).Nodup := by
  rw [List.nodup_append]
  refine ⟨h, List.nodup_singleton x, ?_⟩
  intro a ha ha'
  rw [List.mem_singleton] at ha'
  subst ha'
  exact hx ha

theorem alookup_aset {α β : Type} [DecidableEq α] (l : List (α × β)) (k : α) (v : β) (k' : α) :
    alookup (aset l k v) k' = if k = k' then some v else alookup l k' := by
  induction l with
  | nil => by_cases h : k = k' <;> simp [aset, alookup, h]
  | cons p t ih =>
    obtain ⟨a, b⟩ := p
    rw [aset_cons]
    by_cases hak : a = k
    · subst hak
      rw [if_pos rfl, alookup_cons, alookup_cons]
      by_cases h : a = k'
      · rw [if_pos h, if_pos h]
      · rw [if_neg h, if_neg h, if_neg h]
    · rw [if_neg hak, alookup_cons, alookup_cons]
      by_cases h : a = k'
      · subst h
        have hk : k ≠ a := fun hh => hak hh.symm
        rw [if_pos rfl, if_neg hk, if_pos rfl]
      · rw [if_neg h, if_neg h, ih]

theorem alookup_eq_none_iff {α β : Type} [DecidableEq α] (l : List (α × β)) (k : α) :
    alookup l k = none ↔ k ∉ l.map Prod.fst := by
  induction l with
  | nil => simp [alookup]
  | cons p t ih =>
    obtain ⟨a, b⟩ := p
    by_cases h : a = k
    · subst h
      simp [alookup]
    · simp only [alookup, if_neg h, List.map_cons, List.mem_cons, ih]
      constructor
      · rintro hk (rfl | hm)
        · exact h rfl
        · exact hk hm
      · intro hk hm
        exact hk (Or.inr hm)

theorem alookup_isSome_iff {α β : Type} [DecidableEq α] (l : List (α × β)) (k : α) :
    (alookup l k).isSome = true ↔ k ∈ l.map Prod.fst := by
  rcases h : alookup l k with _ | v
  · simpa [h] using (alookup_eq_none_iff l k).mp h
  · simp only [Option.isSome_some, true_iff]
    by_contra hk
    rw [(alookup_eq_none_iff l k).mpr hk] at h
    exact Option.noConfusion h

theorem mem_of_alookup {α β : Type} [DecidableEq α] {l : List (α × β)} {k : α} {v : β}
    (h : alookup l k = some v) : (k, v) ∈ l := by
  induction l with
  | nil => exact absurd h (by simp [alookup])
  | cons p t ih =>
    obtain ⟨a, b⟩ := p
    by_cases hak : a = k
    · subst hak
      rw [alookup_cons, if_pos rfl] at h
      have hb : b = v := by injection h
      subst hb
      exact List.mem_cons_self _ _
    · rw [alookup_cons, if_neg hak] at h
      exact List.mem_cons_of_mem _ (ih h)

theorem mem_aset {α β : Type} [DecidableEq α] {l : List (α × β)} {k : α} {v : β} {p : α × β}
    (h : p ∈ aset l k v) : p = (k, v) ∨ p ∈ l := by
  induction l with
  | nil => simpa [aset] using h
  | cons q t ih =>
    obtain ⟨a, b⟩ := q
    by_cases hak : a = k
    · subst hak
      rcases (by simpa [aset] using h : p = (a, v) ∨ p ∈ t) with h' | h'
      · exact Or.inl h'
      · exact Or.inr (List.mem_cons_of_mem _ h')
    · rcases (by simpa [aset, hak] using h : p = (a, b) ∨ p ∈ aset t k v) with h' | h'
      · exact Or.inr (by simp [h'])
      · rcases ih h' with h'' | h''
        · exact Or.inl h''
        · exact Or.inr (List.mem_cons_of_mem _ h'')

theorem keys_aset_of_mem {α β : Type} [DecidableEq α] {l : List (α × β)} {k : α} (v : β)
    (h : k ∈ l.map Prod.fst) : (aset l k v).map Prod.fst = l.map Prod.fst := by
  induction l with
  | nil => simp at h
  | cons q t ih =>
    obtain ⟨a, b⟩ := q
    by_cases hak : a = k
    · subst hak
      simp [aset]
    · rw [List.map_cons] at h
      have ht : k ∈ t.map Prod.fst := by
        rcases List.mem_cons.mp h with h' | h'
        · exact absurd h'.symm hak
        · exact h'
      rw [aset_cons, if_neg hak, List.map_cons, List.map_cons, ih ht]

theorem keys_aset_of_not_mem {α β : Type} [DecidableEq α] {l : List (α × β)} {k : α} (v : β)
    (h : k ∉ l.map Prod.fst) : (aset l k v).map Prod.fst = l.map Prod.fst ++ [k] := by
  induction l with
  | nil => simp [aset]
  | cons q t ih =>
    obtain ⟨a, b⟩ := q
    have hak : a ≠ k := by
      intro hh
      exact h (by simp [hh])
    have ht : k ∉ t.map Prod.fst := fun hk => h (by simp [hk])
    simp [aset, hak, ih ht]

theorem keys_nodup_aset {α β : Type} [DecidableEq α] {l : List (α × β)} (k : α) (v : β)
    (h : (l.map Prod.fst).Nodup) : ((aset l k v).map Prod.fst).Nodup := by
  by_cases hk : k ∈ l.map Prod.fst
  · rw [keys_aset_of_mem v hk]
    exact h
  · rw [keys_aset_of_not_mem v hk]
    exact nodup_append_singleton h hk

theorem aerase_sublist {α β : Type} [DecidableEq α] (l : List (α × β)) (k : α) :
    (aerase l k).Sublist l := by
  induction l with
  | nil => simp [aerase]
  | cons q t ih =>
    obtain ⟨a, b⟩ := q
    by_cases hak : a = k
    · rw [aerase_cons, if_pos hak]
      exact List.sublist_cons_self (a, b) t
    · rw [aerase_cons, if_neg hak]
      exact ih.cons₂ (a, b)

theorem alookup_aerase {α β : Type} [DecidableEq α] (l : List (α × β)) (k k' : α)
    (hnd : (l.map Prod.fst).Nodup) :
    alookup (aerase l k) k' = if k = k' then none else alookup l k' := by
  induction l with
  | nil => simp [aerase, alookup]
  | cons q t ih =>
    obtain ⟨a, b⟩ := q
    rw [List.map_cons] at hnd
    have hnd' : (t.map Prod.fst).Nodup := (List.nodup_cons.mp hnd).2
    have hna : a ∉ t.map Prod.fst := (List.nodup_cons.mp hnd).1
    by_cases hak : a = k
    · subst hak
      rw [aerase_cons, if_pos rfl]
      by_cases h : a = k'
      · subst h
        rw [if_pos rfl]
        exact (alookup_eq_none_iff t a).mpr hna
      · rw [if_neg h, alookup_cons, if_neg h]
    · rw [aerase_cons, if_neg hak]
      by_cases hak' : a = k'
      · subst hak'
        have hk : k ≠ a := fun hh => hak hh.symm
        rw [if_neg hk, alookup_cons, if_pos rfl, alookup_cons, if_pos rfl]
      · rw [alookup_cons, if_neg hak', ih hnd', alookup_cons, if_neg hak']

theorem length_aerase_of_mem {α β : Type} [DecidableEq α] {l : List (α × β)} {k : α}
    (h : k ∈ l.map Prod.fst) : (aerase l k).length = l.length - 1 := by
  induction l with
  | nil => simp at h
  | cons q t ih =>
    obtain ⟨a, b⟩ := q
    by_cases hak : a = k
    · simp [aerase, hak]
    · rw [List.map_cons] at h
      have ht : k ∈ t.map Prod.fst := by
        rcases List.mem_cons.mp h with h' | h'
        · exact absurd h'.symm hak
        · exact h'
      have hpos : 0 < t.length := by
        cases t with
        | nil => simp at ht
        | cons _ _ => simp
      simp only [aerase, if_neg hak, List.length_cons, ih ht]
      omega

theorem mem_sadd (l : List Nat) (n m : Nat) : m ∈ sadd l n ↔ m ∈ l ∨ m = n := by
  by_cases h : n ∈ l
  · simp only [sadd, if_pos h]
    constructor
    · exact Or.inl
    · rintro (hm | rfl)
      · exact hm
      · exact h
  · simp [sadd, if_neg h]

theorem nodup_sadd (l : List Nat) (n : Nat) (h : l.Nodup) : (sadd l n).Nodup := by
  by_cases hn : n ∈ l
  · simpa [sadd, hn] using h
  · rw [sadd, if_neg hn]
    exact nodup_append_singleton h hn

theorem HTWF_empty : HTWF ⟨[]⟩ := by
  constructor
  · simp
  · intro p hp
    simp at hp

theorem mk_values (l : List (String × List Nat)) : (HashTable.mk l).values = l := rfl

theorem add_values (t : HashTable) (key : Component) (i : Nat) :
    (t.add key i).values =
      aset t.values key.hashv (sadd ((alookup t.values key.hashv).getD []) i) := rfl

theorem remove_eq_of_none {t : HashTable} {key : Component} (i : Nat)
    (hlk : alookup t.values key.hashv = none) : t.remove key i = (t, false) := by
  unfold HashTable.remove
  rw [hlk]

theorem remove_eq_of_emptied {t : HashTable} {key : Component} {i : Nat} {b : List Nat}
    (hlk : alookup t.values key.hashv = some b) (hemp : b.erase i = []) :
    t.remove key i = (⟨aerase t.values key.hashv⟩, true) := by
  unfold HashTable.remove
  rw [hlk]
  simp [hemp]

theorem remove_eq_of_rest {t : HashTable} {key : Component} {i : Nat} {b : List Nat}
    (hlk : alookup t.values key.hashv = some b) (hemp : b.erase i ≠ []) :
    t.remove key i = (⟨aset t.values key.hashv (b.erase i)⟩, true) := by
  unfold HashTable.remove
  rw [hlk]
  simp [List.length_eq_zero, hemp]

theorem tblMem_add (t : HashTable) (key : Component) (i : Nat) (d : String) (j : Nat) :
    tblMem (t.add key i) d j ↔ tblMem t d j ∨ (d = key.hashv ∧ j = i) := by
  unfold tblMem
  rw [add_values, alookup_aset]
  by_cases hd : key.hashv = d
  · subst hd
    rw [if_pos rfl]
    constructor
    · rintro ⟨b', hb', hj⟩
      obtain rfl : sadd ((alookup t.values key.hashv).getD []) i = b' := by injection hb'
      rcases (mem_sadd _ i j).mp hj with h | h
      · rcases hlk : alookup t.values key.hashv with _ | b
        · rw [hlk] at h
          simp at h
        · rw [hlk] at h
          exact Or.inl ⟨b, rfl, h⟩
      · exact Or.inr ⟨rfl, h⟩
    · rintro (⟨b', hb', hj⟩ | ⟨_, rfl⟩)
      · refine ⟨_, rfl, ?_⟩
        simp only [hb', Option.getD_some]
        exact (mem_sadd _ _ _).mpr (Or.inl hj)
      · exact ⟨_, rfl, (mem_sadd _ _ _).mpr (Or.inr rfl)⟩
  · rw [if_neg hd]
    constructor
    · exact Or.inl
    · rintro (h | ⟨rfl, _⟩)
      · exact h
      · exact absurd rfl hd

theorem HTWF_add (t : HashTable) (key : Component) (i : Nat) (h : HTWF t) :
    HTWF (t.add key i) := by
  obtain ⟨hk, hb⟩ := h
  constructor
  · exact keys_nodup_aset _ _ hk
  · intro p hp
    rcases mem_aset hp with rfl | hp'
    · rcases hlk : alookup t.values key.hashv with _ | b
      · simp only [hlk, Option.getD_none]
        exact nodup_sadd [] i List.nodup_nil
      · simp only [hlk, Option.getD_some]
        exact nodup_sadd b i (hb _ (mem_of_alookup hlk))
    · exact hb _ hp'

theorem tblMem_remove (t : HashTable) (key : Component) (i : Nat) (h : HTWF t)
    (d : String) (j : Nat) :
    tblMem (t.remove key i).1 d j ↔ tblMem t d j ∧ ¬(d = key.hashv ∧ j = i) := by
  obtain ⟨hk, hbn⟩ := h
  rcases hlk : alookup t.values key.hashv with _ | b
  · rw [remove_eq_of_none i hlk]
    constructor
    · intro hm
      refine ⟨hm, ?_⟩
      rintro ⟨rfl, rfl⟩
      obtain ⟨b, hb, _⟩ := hm
      rw [hlk] at hb
      exact Option.noConfusion hb
    · exact fun hm => hm.1
  · have hbnd : b.Nodup := hbn _ (mem_of_alookup hlk)
    by_cases hemp : b.erase i = []
    · rw [remove_eq_of_emptied hlk hemp]
      unfold tblMem
      rw [mk_values, alookup_aerase _ _ _ hk]
      by_cases hd : key.hashv = d
      · subst hd
        rw [if_pos rfl]
        constructor
        · rintro ⟨_, h, _⟩
          exact Option.noConfusion h
        · rintro ⟨⟨b', hb', hj⟩, hne⟩
          obtain rfl : b = b' := by
            rw [hlk] at hb'
            injection hb'
          have hji : j ≠ i := fun hji => hne ⟨rfl, hji⟩
          have hmem : j ∈ b.erase i := hbnd.mem_erase_iff.mpr ⟨hji, hj⟩
          rw [hemp] at hmem
          simp at hmem
      · rw [if_neg hd]
        constructor
        · intro hm
          refine ⟨hm, ?_⟩
          rintro ⟨rfl, _⟩
          exact hd rfl
        · exact fun hm => hm.1
    · rw [remove_eq_of_rest hlk hemp]
      unfold tblMem
      rw [mk_values, alookup_aset]
      by_cases hd : key.hashv = d
      · subst hd
        rw [if_pos rfl]
        constructor
        · rintro ⟨b', hb', hj⟩
          obtain rfl : b.erase i = b' := by injection hb'
          obtain ⟨hji, hjb⟩ := hbnd.mem_erase_iff.mp hj
          exact ⟨⟨b, hlk, hjb⟩, fun hh => hji hh.2⟩
        · rintro ⟨⟨b', hb', hj⟩, hne⟩
          obtain rfl : b = b' := by
            rw [hlk] at hb'
            injection hb'
          have hji : j ≠ i := fun hji => hne ⟨rfl, hji⟩
          exact ⟨_, rfl, hbnd.mem_erase_iff.mpr ⟨hji, hj⟩⟩
      · rw [if_neg hd]
        constructor
        · intro hm
          refine ⟨hm, ?_⟩
          rintro ⟨rfl, _⟩
          exact hd rfl
        · exact fun hm => hm.1

theorem HTWF_remove (t : HashTable) (key : Component) (i : Nat) (h : HTWF t) :
    HTWF (t.remove key i).1 := by
  obtain ⟨hk, hb⟩ := h
  rcases hlk : alookup t.values key.hashv with _ | b
  · rw [remove_eq_of_none i hlk]
    exact ⟨hk, hb⟩
  · by_cases hemp : b.erase i = []
    · rw [remove_eq_of_emptied hlk hemp]
      constructor
      · exact List.Nodup.sublist ((aerase_sublist t.values key.hashv).map Prod.fst) hk
      · intro p hp
        exact hb _ ((aerase_sublist t.values key.hashv).mem hp)
    · rw [remove_eq_of_rest hlk hemp]
      constructor
      · exact keys_nodup_aset _ _ hk
      · intro p hp
        rcases mem_aset hp with rfl | hp'
        · exact (hb _ (mem_of_alookup hlk)).erase i
        · exact hb _ hp'

theorem foldl_compsInsert (cs acc : List Component)
    (h : ((acc ++ cs).map Component.ctype).Nodup) :
    cs.foldl compsInsert acc = acc ++ cs := by
  induction cs generalizing acc with
  | nil => simp
  | cons c rest ih =>
    have hnotin : c.ctype ∉ acc.map Component.ctype := by
      intro hmem
      rw [List.map_append] at h
      obtain ⟨x, hx, hxc⟩ := List.mem_map.mp hmem
      have hcmem : c.ctype ∈ (c :: rest).map Component.ctype := by simp
      exact (List.disjoint_of_nodup_append h) hmem hcmem
    have hany : acc.any (fun x => x.ctype = c.ctype) = false := by
      rw [List.any_eq_false]
      intro x hx
      simp only [decide_eq_true_eq]
      intro hxc
      exact hnotin (List.mem_map.mpr ⟨x, hx, hxc⟩)
    have hstep : compsInsert acc c = acc ++ [c] := by
      unfold compsInsert
      rw [hany]
      simp
    rw [List.foldl_cons, hstep, ih (acc ++ [c]) (by simpa using h)]
    simp

theorem ofList_eq (id : Nat) (cs : List Component) (h : (cs.map Component.ctype).Nodup) :
    Entity.ofList id cs = ⟨id, cs⟩ := by
  unfold Entity.ofList
  have h' : (([] ++ cs).map Component.ctype).Nodup := by simpa using h
  rw [foldl_compsInsert cs [] h']
  simp

theorem mkE_comps (id : Nat) (cs : List Component) : (Entity.mk id cs).comps = cs := rfl

theorem mkE_id (id : Nat) (cs : List Component) : (Entity.mk id cs).id = id := rfl

theorem findc_eq_some_iff (l : List Component) (t : String) (c : Component)
    (h : (l.map Component.ctype).Nodup) :
    l.find? (fun c => c.ctype = t) = some c ↔ c ∈ l ∧ c.ctype = t := by
  induction l with
  | nil => simp
  | cons x rest ih =>
    rw [List.map_cons, List.nodup_cons] at h
    by_cases hx : x.ctype = t
    · rw [List.find?_cons_of_pos _ (by simpa using hx)]
      constructor
      · rintro hcx
        obtain rfl : x = c := by injection hcx
        exact ⟨List.mem_cons_self _ _, hx⟩
      · rintro ⟨hmem, hct⟩
        rcases List.mem_cons.mp hmem with rfl | hmem'
        · rfl
        · exfalso
          apply h.1
          rw [hx, ← hct]
          exact List.mem_map.mpr ⟨c, hmem', rfl⟩
    · rw [List.find?_cons_of_neg _ (by simpa using hx)]
      rw [ih h.2]
      constructor
      · rintro ⟨hmem, hct⟩
        exact ⟨List.mem_cons_of_mem _ hmem, hct⟩
      · rintro ⟨hmem, hct⟩
        rcases List.mem_cons.mp hmem with rfl | hmem'
        · exact absurd hct hx
        · exact ⟨hmem', hct⟩

theorem getComp_eq_some_iff (e : Entity) (t : String) (c : Component)
    (h : (e.comps.map Component.ctype).Nodup) :
    e.getComp t = some c ↔ c ∈ e.comps ∧ c.ctype = t :=
  findc_eq_some_iff e.comps t c h

theorem getComp_isSome_iff (e : Entity) (t : String) :
    (e.getComp t).isSome = true ↔ ∃ c ∈ e.comps, c.ctype = t := by
  unfold Entity.getComp
  rw [List.find?_isSome]
  constructor
  · rintro ⟨c, hc, hct⟩
    exact ⟨c, hc, by simpa using hct⟩
  · rintro ⟨c, hc, hct⟩
    exact ⟨c, hc, by simpa using hct⟩

theorem findc_filter_self (l : List Component) (t : String) :
    (l.filter (fun c => c.ctype ≠ t)).find? (fun c => c.ctype = t) = none := by
  rw [List.find?_eq_none]
  intro c hc
  simp only [List.mem_filter, decide_eq_true_eq] at hc
  simp only [decide_eq_true_eq]
  exact by simpa using hc.2

theorem findc_filter_ne (l : List Component) (t t' : String) (h : t' ≠ t) :
    (l.filter (fun c => c.ctype ≠ t)).find? (fun c => c.ctype = t') =
      l.find? (fun c => c.ctype = t') := by
  induction l with
  | nil => simp
  | cons x rest ih =>
    by_cases hx : x.ctype = t
    · rw [List.filter_cons_of_neg (by simpa using hx)]
      rw [List.find?_cons_of_neg _ ?_]
      · exact ih
      · simp only [hx, decide_eq_true_eq, decide_eq_false_iff_not]
        exact fun hh => h hh.symm
    · rw [List.filter_cons_of_pos (by simpa using hx)]
      by_cases hx' : x.ctype = t'
      · rw [List.find?_cons_of_pos _ (by simpa using hx'),
          List.find?_cons_of_pos _ (by simpa using hx')]
      · rw [List.find?_cons_of_neg _ (by simpa using hx'),
          List.find?_cons_of_neg _ (by simpa using hx')]
        exact ih

theorem getComp_filter (e : Entity) (id : Nat) (t t' : String) :
    (Entity.mk id (e.comps.filter (fun c => c.ctype ≠ t))).getComp t' =
      if t' = t then none else e.getComp t' := by
  unfold Entity.getComp
  rw [mkE_comps]
  by_cases h : t' = t
  · rw [if_pos h, h]
    exact findc_filter_self e.comps t
  · rw [if_neg h]
    exact findc_filter_ne e.comps t t' h

theorem findc_append_last (others : List Component) (c : Component)
    (hno : ∀ x ∈ others, x.ctype ≠ c.ctype) :
    (others ++ [c]).find? (fun x => x.ctype = c.ctype) = some c := by
  induction others with
  | nil =>
    rw [List.nil_append]
    exact List.find?_cons_of_pos _ (by simp)
  | cons x rest ih =>
    have hx : x.ctype ≠ c.ctype := hno x (List.mem_cons_self _ _)
    rw [List.cons_append, List.find?_cons_of_neg _ (by simpa using hx)]
    exact ih (fun y hy => hno y (List.mem_cons_of_mem _ hy))

theorem findc_append_other (others : List Component) (c : Component) (t : String)
    (ht : t ≠ c.ctype) :
    (others ++ [c]).find? (fun x => x.ctype = t) = others.find? (fun x => x.ctype = t) := by
  induction others with
  | nil =>
    rw [List.nil_append, List.find?_nil]
    exact List.find?_cons_of_neg _ (by simpa using fun hh => ht hh.symm)
  | cons x rest ih =>
    by_cases hx : x.ctype = t
    · rw [List.cons_append, List.find?_cons_of_pos _ (by simpa using hx),
        List.find?_cons_of_pos _ (by simpa using hx)]
    · rw [List.cons_append, List.find?_cons_of_neg _ (by simpa using hx),
        List.find?_cons_of_neg _ (by simpa using hx)]
      exact ih

theorem key_mem_of_alookup {α β : Type} [DecidableEq α] {l : List (α × β)} {k : α} {v : β}
    (h : alookup l k = some v) : k ∈ l.map Prod.fst :=
  List.mem_map.mpr ⟨(k, v), mem_of_alookup h, rfl⟩

theorem hka_currId (s : EntityManager) (id : Nat) (c : Component) :
    (housekeepAddComponent s id c).1.currId = s.currId := rfl

theorem hka_entities (s : EntityManager) (id : Nat) (c : Component) :
    (housekeepAddComponent s id c).1.entities = s.entities := rfl

theorem hka_names (s : EntityManager) (id : Nat) (c : Component) :
    (housekeepAddComponent s id c).1.entityNameMapping = s.entityNameMapping := rfl

theorem hka_eregs (s : EntityManager) (id : Nat) (c : Component) :
    (housekeepAddComponent s id c).1.entityRegistrations = s.entityRegistrations := rfl

theorem hka_cregs (s : EntityManager) (id : Nat) (c : Component) :
    (housekeepAddComponent s id c).1.componentRegistrations = s.componentRegistrations := rfl

theorem hkr_currId (s : EntityManager) (id : Nat) (c : Component) (n : Bool) :
    (housekeepRemoveComponent s id c n).1.currId = s.currId := rfl

theorem hkr_entities (s : EntityManager) (id : Nat) (c : Component) (n : Bool) :
    (housekeepRemoveComponent s id c n).1.entities = s.entities := rfl

theorem hkr_names (s : EntityManager) (id : Nat) (c : Component) (n : Bool) :
    (housekeepRemoveComponent s id c n).1.entityNameMapping = s.entityNameMapping := rfl

theorem hkr_eregs (s : EntityManager) (id : Nat) (c : Component) (n : Bool) :
    (housekeepRemoveComponent s id c n).1.entityRegistrations = s.entityRegistrations := rfl

theorem hkr_cregs (s : EntityManager) (id : Nat) (c : Component) (n : Bool) :
    (housekeepRemoveComponent s id c n).1.componentRegistrations = s.componentRegistrations :=
  rfl

theorem foldl_hka_fst (id : Nat) (cs : List Component) :
    ∀ acc : EntityManager × List Event,
      (cs.foldl (fun (acc : EntityManager × List Event) c =>
        let p := housekeepAddComponent acc.1 id c
        (p.1, acc.2 ++ p.2)) acc).1 = hkaStates id acc.1 cs := by
  induction cs with
  | nil => intro acc; rfl
  | cons c rest ih =>
    intro acc
    rw [List.foldl_cons]
    rw [ih]
    rfl

theorem foldl_hkr_fst (id : Nat) (cs : List (String × Component)) :
    ∀ acc : EntityManager × List Event,
      (cs.foldl (fun (acc : EntityManager × List Event) p =>
        let q := housekeepRemoveComponent acc.1 id (Prod.snd p) true
        (q.1, acc.2 ++ q.2)) acc).1 = hkrStates id acc.1 cs := by
  induction cs with
  | nil => intro acc; rfl
  | cons c rest ih =>
    intro acc
    rw [List.foldl_cons]
    rw [ih]
    rfl

theorem mcreate_fst (s : EntityManager) (id : Nat) (cs : List Component) :
    (mcreateEntity s id cs).1 =
      hkaStates id { s with entities := aset s.entities id (Entity.ofList id cs) } cs := by
  unfold mcreateEntity
  exact foldl_hka_fst id cs _

theorem mcreate_entity (s : EntityManager) (id : Nat) (cs : List Component) :
    (mcreateEntity s id cs).2.1 = Entity.ofList id cs := rfl

theorem hkaStates_currId (id : Nat) (cs : List Component) :
    ∀ s : EntityManager, (hkaStates id s cs).currId = s.currId := by
  induction cs with
  | nil => intro s; rfl
  | cons c rest ih =>
    intro s
    unfold hkaStates
    rw [List.foldl_cons]
    exact ih _

theorem hkaStates_entities (id : Nat) (cs : List Component) :
    ∀ s : EntityManager, (hkaStates id s cs).entities = s.entities := by
  induction cs with
  | nil => intro s; rfl
  | cons c rest ih =>
    intro s
    unfold hkaStates
    rw [List.foldl_cons]
    exact ih _

theorem hkaStates_names (id : Nat) (cs : List Component) :
    ∀ s : EntityManager, (hkaStates id s cs).entityNameMapping = s.entityNameMapping := by
  induction cs with
  | nil => intro s; rfl
  | cons c rest ih =>
    intro s
    unfold hkaStates
    rw [List.foldl_cons]
    exact ih _

theorem hkaStates_eregs (id : Nat) (cs : List Component) :
    ∀ s : EntityManager, (hkaStates id s cs).entityRegistrations = s.entityRegistrations := by
  induction cs with
  | nil => intro s; rfl
  | cons c rest ih =>
    intro s
    unfold hkaStates
    rw [List.foldl_cons]
    exact ih _

theorem hkaStates_cregs (id : Nat) (cs : List Component) :
    ∀ s : EntityManager,
      (hkaStates id s cs).componentRegistrations = s.componentRegistrations := by
  induction cs with
  | nil => intro s; rfl
  | cons c rest ih =>
    intro s
    unfold hkaStates
    rw [List.foldl_cons]
    exact ih _

theorem hkrStates_currId (id : Nat) (cs : List (String × Component)) :
    ∀ s : EntityManager, (hkrStates id s cs).currId = s.currId := by
  induction cs with
  | nil => intro s; rfl
  | cons c rest ih =>
    intro s
    unfold hkrStates
    rw [List.foldl_cons]
    exact ih _

theorem hkrStates_entities (id : Nat) (cs : List (String × Component)) :
    ∀ s : EntityManager, (hkrStates id s cs).entities = s.entities := by
  induction cs with
  | nil => intro s; rfl
  | cons c rest ih =>
    intro s
    unfold hkrStates
    rw [List.foldl_cons]
    exact ih _

theorem removeEntity_fst (s : EntityManager) (id : Nat) (e : Entity)
    (hlk : alookup s.entities id = some e) :
    (removeEntity s id).1 = hkrStates id
      { s with
        entities := aerase s.entities id
        componentEntities := s.componentEntities.map (fun p => (p.1, (Prod.snd p).erase id)) }
      e.allComponents := by
  unfold removeEntity
  rw [hlk]
  exact foldl_hkr_fst id e.allComponents _

theorem createEntity_currId (s : EntityManager) (cs : List Component) :
    (createEntity s cs).1.currId = s.currId + 1 := by
  unfold createEntity
  rw [mcreate_fst, hkaStates_currId]

theorem createEntity_entities (s : EntityManager) (cs : List Component) :
    (createEntity s cs).1.entities =
      aset s.entities s.currId (Entity.ofList s.currId cs) := by
  unfold createEntity
  rw [mcreate_fst, hkaStates_entities]

theorem createEntity_id (s : EntityManager) (cs : List Component) :
    (createEntity s cs).2.1.id = s.currId := rfl

theorem removeComponent_ok_currId (s : EntityManager) (id : Nat) (t : String) (n : Bool)
    (r : EntityManager × Bool × List Event) (h : removeComponent s id t n = Except.ok r) :
    r.1.currId = s.currId ∧
      (∀ q ∈ r.1.entities, q.1 = id ∨ q ∈ s.entities) := by
  rcases hlk : alookup s.entities id with _ | e
  · simp only [removeComponent, hlk] at h
    exact absurd h (by simp)
  · rcases hgc : e.getComp t with _ | c
    · simp only [removeComponent, hlk, hgc] at h
      obtain rfl : (s, false, []) = r := by injection h
      exact ⟨rfl, fun q hq => Or.inr hq⟩
    · simp only [removeComponent, hlk, hgc] at h
      obtain rfl : _ = r := by injection h
      refine ⟨by rw [hkr_currId], ?_⟩
      intro q hq
      rw [hkr_entities] at hq
      rcases mem_aset hq with rfl | hq'
      · exact Or.inl rfl
      · exact Or.inr hq'

theorem setComponent_ok_currId (s : EntityManager) (id : Nat) (c : Component)
    (r : EntityManager × List Event) (h : setComponent s id c = Except.ok r) :
    r.1.currId = s.currId ∧
      (∀ q ∈ r.1.entities, q.1 = id ∨ q ∈ s.entities) := by
  rcases hlk : alookup s.entities id with _ | e
  · simp only [setComponent, hlk] at h
    exact absurd h (by simp)
  · rcases hht : e.hasType c.ctype with _ | _
    · simp only [setComponent, hlk, hht, Bool.false_eq_true, if_false] at h
      obtain rfl : _ = r := by injection h
      refine ⟨by rw [hka_currId], ?_⟩
      intro q hq
      rw [hka_entities] at hq
      rcases mem_aset hq with rfl | hq'
      · exact Or.inl rfl
      · exact Or.inr hq'
    · rcases hrc : removeComponent s id c.ctype false with msg | rr
      · simp only [setComponent, hlk, hht, if_true, hrc] at h
        obtain rfl : _ = r := by injection h
        refine ⟨by rw [hka_currId], ?_⟩
        intro q hq
        rw [hka_entities] at hq
        rcases mem_aset hq with rfl | hq'
        · exact Or.inl rfl
        · exact Or.inr hq'
      · obtain ⟨s', b', evs'⟩ := rr
        simp only [setComponent, hlk, hht, if_true, hrc] at h
        obtain ⟨hc1, hc2⟩ := removeComponent_ok_currId s id c.ctype false (s', b', evs') hrc
        obtain rfl : _ = r := by injection h
        refine ⟨by rw [hka_currId]; exact hc1, ?_⟩
        intro q hq
        rw [hka_entities] at hq
        rcases mem_aset hq with rfl | hq'
        · exact Or.inl rfl
        · rcases hc2 q hq' with hid | hmem
          · exact Or.inl hid
          · exact Or.inr hmem

theorem indexBy_some_fields (s : EntityManager) (t : String)
    (p : EntityManager × ComponentIndexingInfo) (h : indexBy s t = some p) :
    p.1.currId = s.currId ∧ p.1.entities = s.entities ∧
      p.1.componentEntities = s.componentEntities ∧
      p.1.entityNameMapping = s.entityNameMapping ∧
      p.1.entityRegistrations = s.entityRegistrations ∧
      p.1.componentRegistrations = s.componentRegistrations ∧
      ∃ ht : HashTable,
        p.1.componentValueEntities = aset s.componentValueEntities t ht := by
  simp only [indexBy] at h
  rcases hb : ((alookup s.componentEntities t).getD []).foldl
      (fun (acc : Option (HashTable × Nat)) id =>
        acc.bind (fun p =>
          match (alookup s.entities id).bind (fun e => e.getComp t) with
          | none => none
          | some c => some (p.1.add c id, p.2 + 1))) (some (⟨[]⟩, 0)) with _ | pr
  · rw [hb] at h
    exact absurd h (by simp)
  · rw [hb] at h
    obtain rfl : _ = p := by injection h
    exact ⟨rfl, rfl, rfl, rfl, rfl, rfl, pr.1, rfl⟩

theorem removeEntity_currId (s : EntityManager) (id : Nat) :
    (removeEntity s id).1.currId = s.currId := by
  rcases hlk : alookup s.entities id with _ | e
  · unfold removeEntity
    rw [hlk]
  · rw [removeEntity_fst s id e hlk, hkrStates_currId]

theorem removeEntity_entities_sub (s : EntityManager) (id : Nat) :
    ∀ q ∈ (removeEntity s id).1.entities, q ∈ s.entities := by
  rcases hlk : alookup s.entities id with _ | e
  · unfold removeEntity
    rw [hlk]
    intro q hq
    exact hq
  · rw [removeEntity_fst s id e hlk, hkrStates_entities]
    intro q hq
    exact (aerase_sublist s.entities id).mem hq

theorem applyOp_currId_le (s : EntityManager) (op : Op) :
    s.currId ≤ (applyOp s op).currId := by
  cases op with
  | create cs =>
    rw [show applyOp s (Op.create cs) = (createEntity s cs).1 from rfl, createEntity_currId]
    exact Nat.le_succ _
  | setComp id c =>
    rcases h : setComponent s id c with msg | r
    · simp [applyOp, h]
    · simp only [applyOp, h]
      rw [(setComponent_ok_currId s id c r h).1]
  | removeComp id t =>
    rcases h : removeComponent s id t true with msg | r
    · simp [applyOp, h]
    · simp only [applyOp, h]
      rw [(removeComponent_ok_currId s id t true r h).1]
  | removeEnt id =>
    rw [show applyOp s (Op.removeEnt id) = (removeEntity s id).1 from rfl,
      removeEntity_currId]
  | indexOp t =>
    rcases h : indexBy s t with _ | p
    · simp [applyOp, h]
    · simp only [applyOp, h]
      rw [(indexBy_some_fields s t p h).1]

theorem IdB_applyOp (s : EntityManager) (op : Op) (h : IdB s) : IdB (applyOp s op) := by
  cases op with
  | create cs =>
    intro q hq
    rw [show applyOp s (Op.create cs) = (createEntity s cs).1 from rfl] at hq ⊢
    rw [createEntity_entities] at hq
    rw [createEntity_currId]
    rcases mem_aset hq with rfl | hq'
    · exact Nat.lt_succ_self _
    · exact Nat.lt_succ_of_lt (h q hq')
  | setComp id c =>
    rcases hr : setComponent s id c with msg | r
    · simpa [applyOp, hr] using h
    · simp only [applyOp, hr]
      obtain ⟨hc, hsub⟩ := setComponent_ok_currId s id c r hr
      intro q hq
      rw [hc]
      rcases hsub q hq with hid | hmem
      · rw [hid]
        rcases hlk : alookup s.entities id with _ | e
        · exfalso
          simp only [setComponent, hlk] at hr
          exact absurd hr (by simp)
        · exact h (id, e) (mem_of_alookup hlk)
      · exact h q hmem
  | removeComp id t =>
    rcases hr : removeComponent s id t true with msg | r
    · simpa [applyOp, hr] using h
    · simp only [applyOp, hr]
      obtain ⟨hc, hsub⟩ := removeComponent_ok_currId s id t true r hr
      intro q hq
      rw [hc]
      rcases hsub q hq with hid | hmem
      · rw [hid]
        rcases hlk : alookup s.entities id with _ | e
        · exfalso
          simp only [removeComponent, hlk] at hr
          exact absurd hr (by simp)
        · exact h (id, e) (mem_of_alookup hlk)
      · exact h q hmem
  | removeEnt id =>
    intro q hq
    rw [show applyOp s (Op.removeEnt id) = (removeEntity s id).1 from rfl] at hq ⊢
    rw [removeEntity_currId]
    exact h q (removeEntity_entities_sub s id q hq)
  | indexOp t =>
    rcases hr : indexBy s t with _ | p
    · simpa [applyOp, hr] using h
    · simp only [applyOp, hr]
      obtain ⟨hc, he, _⟩ := indexBy_some_fields s t p hr
      intro q hq
      rw [hc]
      exact h q (he ▸ hq)

theorem run_cons (s : EntityManager) (op : Op) (ops : List Op) :
    run s (op :: ops) = run (applyOp s op) ops := rfl

theorem run_append (s : EntityManager) (l1 l2 : List Op) :
    run s (l1 ++ l2) = run (run s l1) l2 := by
  unfold run
  exact List.foldl_append _ _ _ _

theorem currId_run_le (ops : List Op) : ∀ s : EntityManager, s.currId ≤ (run s ops).currId := by
  induction ops with
  | nil => intro s; exact Nat.le_refl _
  | cons op rest ih =>
    intro s
    rw [run_cons]
    exact Nat.le_trans (applyOp_currId_le s op) (ih _)

theorem IdB_run (ops : List Op) : ∀ s : EntityManager, IdB s → IdB (run s ops) := by
  induction ops with
  | nil => intro s h; exact h
  | cons op rest ih =>
    intro s h
    rw [run_cons]
    exact ih _ (IdB_applyOp s op h)

theorem IdB_initEM : IdB initEM := by
  intro p hp
  exact absurd hp (by simp [initEM])

theorem createdIds_ge (ops : List Op) :
    ∀ s : EntityManager, ∀ x ∈ createdIds s ops, s.currId ≤ x := by
  induction ops with
  | nil => intro s x hx; exact absurd hx (by simp [createdIds])
  | cons op rest ih =>
    intro s x hx
    unfold createdIds at hx
    rcases List.mem_append.mp hx with hx' | hx'
    · cases op with
      | create cs =>
        rw [List.mem_singleton] at hx'
        subst hx'
        rw [createEntity_id]
      | setComp id c => exact absurd hx' (by simp)
      | removeComp id t => exact absurd hx' (by simp)
      | removeEnt id => exact absurd hx' (by simp)
      | indexOp t => exact absurd hx' (by simp)
    · exact Nat.le_trans (applyOp_currId_le s op) (ih _ x hx')

theorem createdIds_chain (ops : List Op) :
    ∀ s : EntityManager, List.Chain' (fun a b => a < b) (createdIds s ops) := by
  induction ops with
  | nil => intro s; simp [createdIds]
  | cons op rest ih =>
    intro s
    unfold createdIds
    cases op with
    | create cs =>
      rw [show (match Op.create cs with
          | Op.create cs => [(createEntity s cs).2.1.id]
          | _ => []) = [(createEntity s cs).2.1.id] from rfl]
      rw [List.singleton_append]
      rw [List.chain'_cons']
      refine ⟨?_, ih _⟩
      intro y hy
      have hmem : y ∈ createdIds (applyOp s (Op.create cs)) rest :=
        List.mem_of_mem_head? hy
      have hge := createdIds_ge rest _ y hmem
      rw [show applyOp s (Op.create cs) = (createEntity s cs).1 from rfl,
        createEntity_currId] at hge
      rw [createEntity_id]
      exact Nat.lt_of_succ_le hge
    | setComp id c => rw [List.nil_append]; exact ih _
    | removeComp id t => rw [List.nil_append]; exact ih _
    | removeEnt id => rw [List.nil_append]; exact ih _
    | indexOp t => rw [List.nil_append]; exact ih _

/-- C9: ids are allocated monotonically and never reused while a manager is
alive: over any operation sequence without clear, the ids handed out by the
create operations strictly increase, each handed-out id is absent from the
store at hand-out time, and it is strictly greater than every id that was
live at any earlier point of the run (so ids of previously removed entities
are never handed out again). -/
theorem C9_ids_never_reused (ops : List Op) :
    List.Chain' (fun a b => a < b) (createdIds initEM ops) ∧
    ∀ l1 cs l2, ops = l1 ++ Op.create cs :: l2 →
      alookup (run initEM l1).entities ((createEntity (run initEM l1) cs).2.1.id) = none ∧
      ∀ l0 rest, l1 = l0 ++ rest →
        ∀ p ∈ (run initEM l0).entities,
          p.1 < (createEntity (run initEM l1) cs).2.1.id := by
  constructor
  · exact createdIds_chain ops initEM
  · intro l1 cs l2 _
    have hidb : IdB (run initEM l1) := IdB_run l1 initEM IdB_initEM
    rw [createEntity_id]
    constructor
    · apply (alookup_eq_none_iff _ _).mpr
      intro hmem
      obtain ⟨q, hq, hqk⟩ := List.mem_map.mp hmem
      have := hidb q hq
      omega
    · intro l0 rest hsplit
      intro p hp
      have h1 : p.1 < (run initEM l0).currId := IdB_run l0 initEM IdB_initEM p hp
      have h2 : (run initEM l0).currId ≤ (run initEM l1).currId := by
        rw [hsplit, run_append]
        exact currId_run_le rest _
      omega

theorem exists_some_mem {L : List Nat} {j : Nat} :
    (∃ l, (some L : Option (List Nat)) = some l ∧ j ∈ l) ↔ j ∈ L := by
  constructor
  · rintro ⟨l, hl, hj⟩
    obtain rfl : L = l := by injection hl
    exact hj
  · intro hj
    exact ⟨L, rfl, hj⟩

theorem mem_getD_iff_presMem (s : EntityManager) (t : String) (j : Nat) :
    j ∈ (alookup s.componentEntities t).getD [] ↔ presMem s t j := by
  unfold presMem
  rcases hlk : alookup s.componentEntities t with _ | l
  · simp
  · simp only [Option.getD_some]
    exact exists_some_mem.symm

theorem hka_ce (s : EntityManager) (id : Nat) (c : Component) :
    (housekeepAddComponent s id c).1.componentEntities =
      aset s.componentEntities c.ctype
        (sadd ((alookup s.componentEntities c.ctype).getD []) id) := rfl

theorem hka_cve (s : EntityManager) (id : Nat) (c : Component) :
    (housekeepAddComponent s id c).1.componentValueEntities =
      match alookup s.componentValueEntities c.ctype with
      | none => s.componentValueEntities
      | some ht => aset s.componentValueEntities c.ctype (ht.add c id) := rfl

theorem hkr_ce (s : EntityManager) (id : Nat) (c : Component) (n : Bool) :
    (housekeepRemoveComponent s id c n).1.componentEntities =
      match alookup s.componentEntities c.ctype with
      | none => s.componentEntities
      | some ids => aset s.componentEntities c.ctype (ids.erase id) := rfl

theorem hkr_cve (s : EntityManager) (id : Nat) (c : Component) (n : Bool) :
    (housekeepRemoveComponent s id c n).1.componentValueEntities =
      match alookup s.componentValueEntities c.ctype with
      | none => s.componentValueEntities
      | some ht => aset s.componentValueEntities c.ctype (ht.remove c id).1 := rfl

theorem hka_presMem (s : EntityManager) (id : Nat) (c : Component) (t' : String) (j : Nat) :
    presMem (housekeepAddComponent s id c).1 t' j ↔
      presMem s t' j ∨ (t' = c.ctype ∧ j = id) := by
  unfold presMem
  rw [hka_ce, alookup_aset]
  by_cases ht' : c.ctype = t'
  · subst ht'
    rw [if_pos rfl, exists_some_mem, mem_sadd, mem_getD_iff_presMem]
    unfold presMem
    constructor
    · rintro (h | rfl)
      · exact Or.inl h
      · exact Or.inr ⟨rfl, rfl⟩
    · rintro (h | ⟨_, rfl⟩)
      · exact Or.inl h
      · exact Or.inr rfl
  · rw [if_neg ht']
    constructor
    · exact Or.inl
    · rintro (h | ⟨rfl, _⟩)
      · exact h
      · exact absurd rfl ht'

theorem hka_cve_at (s : EntityManager) (id : Nat) (c : Component) (t' : String) :
    alookup (housekeepAddComponent s id c).1.componentValueEntities t' =
      if t' = c.ctype then
        (alookup s.componentValueEntities c.ctype).map (fun ht => ht.add c id)
      else alookup s.componentValueEntities t' := by
  rw [hka_cve]
  rcases hlk : alookup s.componentValueEntities c.ctype with _ | ht
  · by_cases ht' : t' = c.ctype
    · subst ht'
      rw [if_pos rfl, hlk]
      rfl
    · rw [if_neg ht']
  · by_cases ht' : t' = c.ctype
    · subst ht'
      rw [if_pos rfl, alookup_aset, if_pos rfl]
      rfl
    · rw [if_neg ht', alookup_aset, if_neg (fun hh => ht' hh.symm)]

theorem hka_ceNodup (s : EntityManager) (id : Nat) (c : Component)
    (h : ∀ p ∈ s.componentEntities, (Prod.snd p : List Nat).Nodup) :
    ∀ p ∈ (housekeepAddComponent s id c).1.componentEntities,
      (Prod.snd p : List Nat).Nodup := by
  rw [hka_ce]
  intro p hp
  rcases mem_aset hp with rfl | hp'
  · rcases hlk : alookup s.componentEntities c.ctype with _ | l
    · simp only [hlk, Option.getD_none]
      exact nodup_sadd [] id List.nodup_nil
    · simp only [hlk, Option.getD_some]
      exact nodup_sadd l id (h _ (mem_of_alookup hlk))
  · exact h p hp'

theorem hka_htwf (s : EntityManager) (id : Nat) (c : Component)
    (h : ∀ p ∈ s.componentValueEntities, HTWF (Prod.snd p)) :
    ∀ p ∈ (housekeepAddComponent s id c).1.componentValueEntities, HTWF (Prod.snd p) := by
  rw [hka_cve]
  rcases hlk : alookup s.componentValueEntities c.ctype with _ | ht
  · exact h
  · intro p hp
    rcases mem_aset hp with rfl | hp'
    · exact HTWF_add ht c id (h _ (mem_of_alookup hlk))
    · exact h p hp'

theorem hkr_presMem (s : EntityManager) (id : Nat) (c : Component) (n : Bool)
    (hnd : ∀ p ∈ s.componentEntities, (Prod.snd p : List Nat).Nodup) (t' : String) (j : Nat) :
    presMem (housekeepRemoveComponent s id c n).1 t' j ↔
      presMem s t' j ∧ ¬(t' = c.ctype ∧ j = id) := by
  unfold presMem
  rw [hkr_ce]
  rcases hlk : alookup s.componentEntities c.ctype with _ | ids
  · constructor
    · intro hm
      refine ⟨hm, ?_⟩
      rintro ⟨rfl, rfl⟩
      obtain ⟨l, hl, _⟩ := hm
      rw [hlk] at hl
      exact Option.noConfusion hl
    · exact fun hm => hm.1
  · rw [alookup_aset]
    by_cases ht' : c.ctype = t'
    · subst ht'
      rw [if_pos rfl, exists_some_mem,
        (hnd _ (mem_of_alookup hlk)).mem_erase_iff]
      rw [hlk]
      constructor
      · rintro ⟨hne, hj⟩
        exact ⟨exists_some_mem.mpr hj, fun hh => hne hh.2⟩
      · rintro ⟨hm, hne⟩
        exact ⟨fun hh => hne ⟨rfl, hh⟩, exists_some_mem.mp hm⟩
    · rw [if_neg ht']
      constructor
      · intro hm
        refine ⟨hm, ?_⟩
        rintro ⟨rfl, _⟩
        exact ht' rfl
      · exact fun hm => hm.1

theorem hkr_cve_at (s : EntityManager) (id : Nat) (c : Component) (n : Bool) (t' : String) :
    alookup (housekeepRemoveComponent s id c n).1.componentValueEntities t' =
      if t' = c.ctype then
        (alookup s.componentValueEntities c.ctype).map (fun ht => (ht.remove c id).1)
      else alookup s.componentValueEntities t' := by
  rw [hkr_cve]
  rcases hlk : alookup s.componentValueEntities c.ctype with _ | ht
  · by_cases ht' : t' = c.ctype
    · subst ht'
      rw [if_pos rfl, hlk]
      rfl
    · rw [if_neg ht']
  · by_cases ht' : t' = c.ctype
    · subst ht'
      rw [if_pos rfl, alookup_aset, if_pos rfl]
      rfl
    · rw [if_neg ht', alookup_aset, if_neg (fun hh => ht' hh.symm)]

theorem hkr_ceNodup (s : EntityManager) (id : Nat) (c : Component) (n : Bool)
    (h : ∀ p ∈ s.componentEntities, (Prod.snd p : List Nat).Nodup) :
    ∀ p ∈ (housekeepRemoveComponent s id c n).1.componentEntities,
      (Prod.snd p : List Nat).Nodup := by
  rw [hkr_ce]
  rcases hlk : alookup s.componentEntities c.ctype with _ | ids
  · exact h
  · intro p hp
    rcases mem_aset hp with rfl | hp'
    · exact (h _ (mem_of_alookup hlk)).erase id
    · exact h p hp'

theorem hkr_htwf (s : EntityManager) (id : Nat) (c : Component) (n : Bool)
    (h : ∀ p ∈ s.componentValueEntities, HTWF (Prod.snd p)) :
    ∀ p ∈ (housekeepRemoveComponent s id c n).1.componentValueEntities,
      HTWF (Prod.snd p) := by
  rw [hkr_cve]
  rcases hlk : alookup s.componentValueEntities c.ctype with _ | ht
  · exact h
  · intro p hp
    rcases mem_aset hp with rfl | hp'
    · exact HTWF_remove ht c id (h _ (mem_of_alookup hlk))
    · exact h p hp'

theorem hkaStates_cons (id : Nat) (s : EntityManager) (c : Component)
    (rest : List Component) :
    hkaStates id s (c :: rest) = hkaStates id (housekeepAddComponent s id c).1 rest := rfl

theorem hkrStates_cons (id : Nat) (s : EntityManager) (p : String × Component)
    (rest : List (String × Component)) :
    hkrStates id s (p :: rest) =
      hkrStates id (housekeepRemoveComponent s id (Prod.snd p) true).1 rest := rfl

theorem hkaStates_presMem (id : Nat) (cs : List Component) :
    ∀ (s : EntityManager) (t' : String) (j : Nat),
      presMem (hkaStates id s cs) t' j ↔
        presMem s t' j ∨ (t' ∈ cs.map Component.ctype ∧ j = id) := by
  induction cs with
  | nil =>
    intro s t' j
    constructor
    · exact Or.inl
    · rintro (h | ⟨hmem, _⟩)
      · exact h
      · exact absurd hmem (by simp)
  | cons c rest ih =>
    intro s t' j
    rw [hkaStates_cons, ih, hka_presMem]
    constructor
    · rintro ((h | ⟨rfl, rfl⟩) | ⟨hmem, rfl⟩)
      · exact Or.inl h
      · exact Or.inr ⟨by simp, rfl⟩
      · exact Or.inr ⟨by simp [hmem], rfl⟩
    · rintro (h | ⟨hmem, rfl⟩)
      · exact Or.inl (Or.inl h)
      · rw [List.map_cons, List.mem_cons] at hmem
        rcases hmem with rfl | hmem'
        · exact Or.inl (Or.inr ⟨rfl, rfl⟩)
        · exact Or.inr ⟨hmem', rfl⟩

theorem hkaStates_ceNodup (id : Nat) (cs : List Component) :
    ∀ s : EntityManager, (∀ p ∈ s.componentEntities, (Prod.snd p : List Nat).Nodup) →
      ∀ p ∈ (hkaStates id s cs).componentEntities, (Prod.snd p : List Nat).Nodup := by
  induction cs with
  | nil => intro s h; exact h
  | cons c rest ih =>
    intro s h
    rw [hkaStates_cons]
    exact ih _ (hka_ceNodup s id c h)

theorem hkaStates_htwf (id : Nat) (cs : List Component) :
    ∀ s : EntityManager, (∀ p ∈ s.componentValueEntities, HTWF (Prod.snd p)) →
      ∀ p ∈ (hkaStates id s cs).componentValueEntities, HTWF (Prod.snd p) := by
  induction cs with
  | nil => intro s h; exact h
  | cons c rest ih =>
    intro s h
    rw [hkaStates_cons]
    exact ih _ (hka_htwf s id c h)

theorem hkaStates_cve_none (id : Nat) (cs : List Component) :
    ∀ (s : EntityManager) (t' : String), alookup s.componentValueEntities t' = none →
      alookup (hkaStates id s cs).componentValueEntities t' = none := by
  induction cs with
  | nil => intro s t' h; exact h
  | cons c rest ih =>
    intro s t' h
    rw [hkaStates_cons]
    apply ih
    rw [hka_cve_at]
    by_cases ht' : t' = c.ctype
    · subst ht'
      rw [if_pos rfl, h]
      rfl
    · rw [if_neg ht']
      exact h

theorem hkaStates_tblMem (id : Nat) (cs : List Component) :
    ∀ (s : EntityManager) (t' : String) (ht : HashTable),
      alookup s.componentValueEntities t' = some ht →
      ∃ ht', alookup (hkaStates id s cs).componentValueEntities t' = some ht' ∧
        (HTWF ht → HTWF ht') ∧
        ∀ d j, tblMem ht' d j ↔
          tblMem ht d j ∨ (j = id ∧ ∃ c ∈ cs, c.ctype = t' ∧ c.hashv = d) := by
  induction cs with
  | nil =>
    intro s t' ht hlk
    refine ⟨ht, hlk, fun h => h, ?_⟩
    intro d j
    constructor
    · exact Or.inl
    · rintro (h | ⟨_, c, hc, _⟩)
      · exact h
      · exact absurd hc (by simp)
  | cons c rest ih =>
    intro s t' ht hlk
    rw [hkaStates_cons]
    by_cases ht' : t' = c.ctype
    · subst ht'
      have hlk1 : alookup (housekeepAddComponent s id c).1.componentValueEntities c.ctype =
          some (ht.add c id) := by
        rw [hka_cve_at, if_pos rfl, hlk]
        rfl
      obtain ⟨ht2, hlk2, hwf2, hiff2⟩ := ih _ _ _ hlk1
      refine ⟨ht2, hlk2, fun h => hwf2 (HTWF_add ht c id h), ?_⟩
      intro d j
      rw [hiff2, tblMem_add]
      constructor
      · rintro ((h | ⟨rfl, rfl⟩) | ⟨rfl, c', hc', hct, hch⟩)
        · exact Or.inl h
        · exact Or.inr ⟨rfl, c, by simp, rfl, rfl⟩
        · exact Or.inr ⟨rfl, c', List.mem_cons_of_mem _ hc', hct, hch⟩
      · rintro (h | ⟨rfl, c', hc', hct, hch⟩)
        · exact Or.inl (Or.inl h)
        · rcases List.mem_cons.mp hc' with rfl | hc''
          · exact Or.inl (Or.inr ⟨hch.symm, rfl⟩)
          · exact Or.inr ⟨rfl, c', hc'', hct, hch⟩
    · have hlk1 : alookup (housekeepAddComponent s id c).1.componentValueEntities t' =
          some ht := by
        rw [hka_cve_at, if_neg ht']
        exact hlk
      obtain ⟨ht2, hlk2, hwf2, hiff2⟩ := ih _ _ _ hlk1
      refine ⟨ht2, hlk2, hwf2, ?_⟩
      intro d j
      rw [hiff2]
      constructor
      · rintro (h | ⟨rfl, c', hc', hct, hch⟩)
        · exact Or.inl h
        · exact Or.inr ⟨rfl, c', List.mem_cons_of_mem _ hc', hct, hch⟩
      · rintro (h | ⟨rfl, c', hc', hct, hch⟩)
        · exact Or.inl h
        · rcases List.mem_cons.mp hc' with rfl | hc''
          · exact absurd hct.symm ht'
          · exact Or.inr ⟨rfl, c', hc'', hct, hch⟩

theorem hkrStates_presMem (id : Nat) (cs : List (String × Component)) :
    ∀ (s : EntityManager), (∀ p ∈ s.componentEntities, (Prod.snd p : List Nat).Nodup) →
      ∀ (t' : String) (j : Nat),
      presMem (hkrStates id s cs) t' j ↔
        presMem s t' j ∧
          ¬(j = id ∧ t' ∈ cs.map (fun p => (Prod.snd p : Component).ctype)) := by
  induction cs with
  | nil =>
    intro s _ t' j
    constructor
    · intro h
      exact ⟨h, by rintro ⟨_, hmem⟩; exact absurd hmem (by simp)⟩
    · exact fun h => h.1
  | cons p rest ih =>
    intro s hnd t' j
    rw [hkrStates_cons, ih _ (hkr_ceNodup s id (Prod.snd p) true hnd),
      hkr_presMem s id (Prod.snd p) true hnd]
    constructor
    · rintro ⟨⟨hm, hne1⟩, hne2⟩
      refine ⟨hm, ?_⟩
      rintro ⟨rfl, hmem⟩
      rw [List.map_cons, List.mem_cons] at hmem
      rcases hmem with rfl | hmem'
      · exact hne1 ⟨rfl, rfl⟩
      · exact hne2 ⟨rfl, hmem'⟩
    · rintro ⟨hm, hne⟩
      refine ⟨⟨hm, ?_⟩, ?_⟩
      · rintro ⟨rfl, rfl⟩
        exact hne ⟨rfl, by simp⟩
      · rintro ⟨rfl, hmem⟩
        exact hne ⟨rfl, by simp [hmem]⟩

theorem hkrStates_ceNodup (id : Nat) (cs : List (String × Component)) :
    ∀ s : EntityManager, (∀ p ∈ s.componentEntities, (Prod.snd p : List Nat).Nodup) →
      ∀ p ∈ (hkrStates id s cs).componentEntities, (Prod.snd p : List Nat).Nodup := by
  induction cs with
  | nil => intro s h; exact h
  | cons p rest ih =>
    intro s h
    rw [hkrStates_cons]
    exact ih _ (hkr_ceNodup s id (Prod.snd p) true h)

theorem hkrStates_htwf (id : Nat) (cs : List (String × Component)) :
    ∀ s : EntityManager, (∀ p ∈ s.componentValueEntities, HTWF (Prod.snd p)) →
      ∀ p ∈ (hkrStates id s cs).componentValueEntities, HTWF (Prod.snd p) := by
  induction cs with
  | nil => intro s h; exact h
  | cons p rest ih =>
    intro s h
    rw [hkrStates_cons]
    exact ih _ (hkr_htwf s id (Prod.snd p) true h)

theorem hkrStates_cve_none (id : Nat) (cs : List (String × Component)) :
    ∀ (s : EntityManager) (t' : String), alookup s.componentValueEntities t' = none →
      alookup (hkrStates id s cs).componentValueEntities t' = none := by
  induction cs with
  | nil => intro s t' h; exact h
  | cons p rest ih =>
    intro s t' h
    rw [hkrStates_cons]
    apply ih
    rw [hkr_cve_at]
    by_cases ht' : t' = (Prod.snd p : Component).ctype
    · subst ht'
      rw [if_pos rfl, h]
      rfl
    · rw [if_neg ht']
      exact h

theorem hkrStates_tblMem (id : Nat) (cs : List (String × Component)) :
    ∀ (s : EntityManager), (∀ p ∈ s.componentValueEntities, HTWF (Prod.snd p)) →
      ∀ (t' : String) (ht : HashTable),
      alookup s.componentValueEntities t' = some ht →
      ∃ ht', alookup (hkrStates id s cs).componentValueEntities t' = some ht' ∧
        ∀ d j, tblMem ht' d j ↔
          tblMem ht d j ∧
            ¬(j = id ∧ ∃ p ∈ cs, (Prod.snd p : Component).ctype = t' ∧
              (Prod.snd p : Component).hashv = d) := by
  induction cs with
  | nil =>
    intro s _ t' ht hlk
    refine ⟨ht, hlk, ?_⟩
    intro d j
    constructor
    · intro h
      exact ⟨h, by rintro ⟨_, p, hp, _⟩; exact absurd hp (by simp)⟩
    · exact fun h => h.1
  | cons p rest ih =>
    intro s hwf t' ht hlk
    rw [hkrStates_cons]
    have hwf1 := hkr_htwf s id (Prod.snd p) true hwf
    by_cases ht' : t' = (Prod.snd p : Component).ctype
    · subst ht'
      have hlk1 : alookup (housekeepRemoveComponent s id (Prod.snd p) true).1.componentValueEntities
          (Prod.snd p : Component).ctype = some ((ht.remove (Prod.snd p) id).1) := by
        rw [hkr_cve_at, if_pos rfl, hlk]
        rfl
      obtain ⟨ht2, hlk2, hiff2⟩ := ih _ hwf1 _ _ hlk1
      refine ⟨ht2, hlk2, ?_⟩
      intro d j
      rw [hiff2, tblMem_remove _ _ _ (hwf _ (mem_of_alookup hlk))]
      constructor
      · rintro ⟨⟨hm, hne1⟩, hne2⟩
        refine ⟨hm, ?_⟩
        rintro ⟨rfl, q, hq, hqt, hqh⟩
        rcases List.mem_cons.mp hq with rfl | hq'
        · exact hne1 ⟨hqh.symm, rfl⟩
        · exact hne2 ⟨rfl, q, hq', hqt, hqh⟩
      · rintro ⟨hm, hne⟩
        refine ⟨⟨hm, ?_⟩, ?_⟩
        · rintro ⟨rfl, rfl⟩
          exact hne ⟨rfl, p, by simp, rfl, rfl⟩
        · rintro ⟨rfl, q, hq, hqt, hqh⟩
          exact hne ⟨rfl, q, List.mem_cons_of_mem _ hq, hqt, hqh⟩
    · have hlk1 : alookup (housekeepRemoveComponent s id (Prod.snd p) true).1.componentValueEntities
          t' = some ht := by
        rw [hkr_cve_at, if_neg ht']
        exact hlk
      obtain ⟨ht2, hlk2, hiff2⟩ := ih _ hwf1 _ _ hlk1
      refine ⟨ht2, hlk2, ?_⟩
      intro d j
      rw [hiff2]
      constructor
      · rintro ⟨hm, hne⟩
        refine ⟨hm, ?_⟩
        rintro ⟨rfl, q, hq, hqt, hqh⟩
        rcases List.mem_cons.mp hq with rfl | hq'
        · exact ht' hqt.symm
        · exact hne ⟨rfl, q, hq', hqt, hqh⟩
      · rintro ⟨hm, hne⟩
        refine ⟨hm, ?_⟩
        rintro ⟨rfl, q, hq, hqt, hqh⟩
        exact hne ⟨rfl, q, List.mem_cons_of_mem _ hq, hqt, hqh⟩

theorem filterMapSnd (l : List Component) (t : String) :
    ((l.map (fun c => (c.ctype, c))).filter (fun p => (Prod.snd p).ctype ∉ [t])).map
      Prod.snd = l.filter (fun c => c.ctype ≠ t) := by
  induction l with
  | nil => simp
  | cons c rest ih =>
    rw [List.map_cons]
    by_cases hc : c.ctype = t
    · rw [List.filter_cons_of_neg (by simpa using hc),
        List.filter_cons_of_neg (by simpa using hc)]
      exact ih
    · rw [List.filter_cons_of_pos (by simpa using hc),
        List.filter_cons_of_pos (by simpa using hc), List.map_cons, ih]

theorem excludeComponents_single (s : EntityManager) (id : Nat) (t : String) (e : Entity)
    (hlk : alookup s.entities id = some e) :
    excludeComponents s id [t] = e.comps.filter (fun c => c.ctype ≠ t) := by
  simp only [excludeComponents, hlk, Entity.allComponents]
  exact filterMapSnd e.comps t

theorem Inv_initEM : Inv initEM := by
  refine ⟨?_, ?_, ?_, ?_, ?_, ?_, ?_⟩
  · simp [initEM]
  · intro p hp
    exact absurd hp (by simp [initEM])
  · intro p hp
    exact absurd hp (by simp [initEM])
  · intro p hp
    exact absurd hp (by simp [initEM])
  · intro t id
    constructor
    · rintro ⟨l, hl, _⟩
      exact absurd hl (by simp [initEM, alookup])
    · rintro ⟨e, he, _⟩
      exact absurd he (by simp [initEM, alookup])
  · intro p hp
    exact absurd hp (by simp [initEM])
  · intro t ht hlk
    exact absurd hlk (by simp [initEM, alookup])

theorem hasType_mk_iff (id : Nat) (cs : List Component) (t : String) :
    (Entity.mk id cs).hasType t = true ↔ t ∈ cs.map Component.ctype := by
  unfold Entity.hasType
  rw [getComp_isSome_iff, mkE_comps]
  constructor
  · rintro ⟨c, hc, rfl⟩
    exact List.mem_map.mpr ⟨c, hc, rfl⟩
  · intro h
    obtain ⟨c, hc, rfl⟩ := List.mem_map.mp h
    exact ⟨c, hc, rfl⟩

theorem Inv_mcreate (s : EntityManager) (id : Nat) (cs : List Component)
    (hinv : Inv s) (hnodup : (cs.map Component.ctype).Nodup)
    (hfresh : alookup s.entities id = none) :
    Inv (mcreateEntity s id cs).1 := by
  have hof : Entity.ofList id cs = ⟨id, cs⟩ := ofList_eq id cs hnodup
  rw [mcreate_fst, hof]
  set s1 : EntityManager :=
    { s with entities := aset s.entities id (⟨id, cs⟩ : Entity) } with hs1
  have hent : (hkaStates id s1 cs).entities = aset s.entities id (⟨id, cs⟩ : Entity) := by
    rw [hkaStates_entities]
  have hlknew : ∀ j, alookup (hkaStates id s1 cs).entities j =
      if id = j then some (⟨id, cs⟩ : Entity) else alookup s.entities j := by
    intro j
    rw [hent, alookup_aset]
  refine ⟨?_, ?_, ?_, ?_, ?_, ?_, ?_⟩
  · rw [hent]
    exact keys_nodup_aset _ _ hinv.entKeys
  · rw [hent]
    intro p hp
    rcases mem_aset hp with rfl | hp'
    · rfl
    · exact hinv.entId p hp'
  · rw [hent]
    intro p hp
    rcases mem_aset hp with rfl | hp'
    · exact hnodup
    · exact hinv.entComps p hp'
  · exact hkaStates_ceNodup id cs s1 hinv.ceNodup
  · intro t' j
    rw [hkaStates_presMem]
    have hps1 : presMem s1 t' j ↔ presMem s t' j := Iff.rfl
    rw [hps1]
    unfold liveHas
    rw [hlknew j]
    by_cases hj : id = j
    · subst hj
      rw [if_pos rfl]
      constructor
      · rintro (hm | ⟨hmem, _⟩)
        · exfalso
          obtain ⟨e, he, _⟩ := (hinv.pres t' id).mp hm
          rw [hfresh] at he
          exact Option.noConfusion he
        · exact ⟨⟨id, cs⟩, rfl, (hasType_mk_iff id cs t').mpr hmem⟩
      · rintro ⟨e, he, hht⟩
        obtain rfl : (⟨id, cs⟩ : Entity) = e := by injection he
        exact Or.inr ⟨(hasType_mk_iff id cs t').mp hht, rfl⟩
    · rw [if_neg hj]
      constructor
      · rintro (hm | ⟨_, rfl⟩)
        · exact (hinv.pres t' j).mp hm
        · exact absurd rfl hj
      · intro hlive
        exact Or.inl ((hinv.pres t' j).mpr hlive)
  · exact hkaStates_htwf id cs s1 hinv.htwf
  · intro t' ht' hlk'
    rcases hcve : alookup s.componentValueEntities t' with _ | ht
    · rw [hkaStates_cve_none id cs s1 t' hcve] at hlk'
      exact Option.noConfusion hlk'
    · obtain ⟨ht2, hlk2, _, hiff⟩ := hkaStates_tblMem id cs s1 t' ht hcve
      rw [hlk2] at hlk'
      obtain rfl : ht2 = ht' := by injection hlk'
      intro d j
      rw [hiff]
      unfold liveHash
      rw [hlknew j]
      by_cases hj : id = j
      · subst hj
        rw [if_pos rfl]
        constructor
        · rintro (hm | ⟨_, c, hc, hct, hch⟩)
          · exfalso
            obtain ⟨e, c, he, _⟩ := (hinv.val t' ht hcve d id).mp hm
            rw [hfresh] at he
            exact Option.noConfusion he
          · refine ⟨⟨id, cs⟩, c, rfl, ?_, hch⟩
            unfold Entity.getComp
            rw [mkE_comps]
            exact (findc_eq_some_iff cs t' c hnodup).mpr ⟨hc, hct⟩
        · rintro ⟨e, c, he, hgc, hch⟩
          obtain rfl : (⟨id, cs⟩ : Entity) = e := by injection he
          have hmem := (findc_eq_some_iff cs t' c hnodup).mp hgc
          exact Or.inr ⟨rfl, c, hmem.1, hmem.2, hch⟩
      · rw [if_neg hj]
        constructor
        · rintro (hm | ⟨rfl, _⟩)
          · exact (hinv.val t' ht hcve d j).mp hm
          · exact absurd rfl hj
        · intro hlive
          exact Or.inl ((hinv.val t' ht hcve d j).mpr hlive)

theorem Inv_createEntity (s : EntityManager) (cs : List Component)
    (hinv : Inv s) (hidb : IdB s) (hnodup : (cs.map Component.ctype).Nodup) :
    Inv (createEntity s cs).1 := by
  unfold createEntity
  apply Inv_mcreate _ _ _ ?_ hnodup ?_
  · exact ⟨hinv.entKeys, hinv.entId, hinv.entComps, hinv.ceNodup, hinv.pres, hinv.htwf,
      hinv.val⟩
  · apply (alookup_eq_none_iff _ _).mpr
    intro hmem
    obtain ⟨q, hq, hqk⟩ := List.mem_map.mp hmem
    have := hidb q hq
    omega

theorem removeComponent_isOk (s : EntityManager) (id : Nat) (t : String) (n : Bool)
    (e : Entity) (hlk : alookup s.entities id = some e) :
    ∃ r, removeComponent s id t n = Except.ok r := by
  rcases hr : removeComponent s id t n with msg | r
  · exfalso
    rcases hgc : e.getComp t with _ | c
    · simp only [removeComponent, hlk, hgc] at hr
      exact absurd hr (by simp)
    · simp only [removeComponent, hlk, hgc] at hr
      exact absurd hr (by simp)
  · exact ⟨r, rfl⟩

theorem Inv_removeComponent (s : EntityManager) (id : Nat) (t : String) (n : Bool)
    (r : EntityManager × Bool × List Event) (hinv : Inv s)
    (h : removeComponent s id t n = Except.ok r) :
    Inv r.1 ∧ ∃ e', alookup r.1.entities id = some e' ∧ e'.hasType t = false := by
  rcases hlk : alookup s.entities id with _ | e
  · simp only [removeComponent, hlk] at h
    exact absurd h (by simp)
  · have hend : (e.comps.map Component.ctype).Nodup :=
      hinv.entComps (id, e) (mem_of_alookup hlk)
    rcases hgc : e.getComp t with _ | toRemove
    · simp only [removeComponent, hlk, hgc] at h
      obtain rfl : (s, false, []) = r := by injection h
      refine ⟨hinv, e, hlk, ?_⟩
      unfold Entity.hasType
      rw [hgc]
      rfl
    · simp only [removeComponent, hlk, hgc] at h
      obtain rfl : _ = r := by injection h
      have hfil := excludeComponents_single s id t e hlk
      set flt := e.comps.filter (fun x => x.ctype ≠ t) with hfltdef
      have hfilnd : (flt.map Component.ctype).Nodup :=
        List.Nodup.sublist (List.Sublist.map _ (List.filter_sublist _)) hend
      have hof : Entity.ofList id (excludeComponents s id [t]) = ⟨id, flt⟩ := by
        rw [hfil]
        exact ofList_eq id flt hfilnd
      have htr := (getComp_eq_some_iff e t toRemove hend).mp hgc
      set s1 : EntityManager :=
        { s with entities := aset s.entities id (Entity.ofList id (excludeComponents s id [t])) }
        with hs1
      have hent : (housekeepRemoveComponent s1 id toRemove n).1.entities =
          aset s.entities id (⟨id, flt⟩ : Entity) := by
        rw [hkr_entities, hs1, hof]
      have hlknew : ∀ j, alookup (housekeepRemoveComponent s1 id toRemove n).1.entities j =
          if id = j then some (⟨id, flt⟩ : Entity) else alookup s.entities j := by
        intro j
        rw [hent, alookup_aset]
      have hgflt : ∀ t', (Entity.mk id flt).getComp t' =
          if t' = t then none else e.getComp t' := by
        intro t'
        exact getComp_filter e id t t'
      constructor
      · refine ⟨?_, ?_, ?_, ?_, ?_, ?_, ?_⟩
        · rw [hent]
          exact keys_nodup_aset _ _ hinv.entKeys
        · rw [hent]
          intro p hp
          rcases mem_aset hp with rfl | hp'
          · rfl
          · exact hinv.entId p hp'
        · rw [hent]
          intro p hp
          rcases mem_aset hp with rfl | hp'
          · exact hfilnd
          · exact hinv.entComps p hp'
        · exact hkr_ceNodup s1 id toRemove n hinv.ceNodup
        · intro t' j
          rw [hkr_presMem s1 id toRemove n hinv.ceNodup, htr.2]
          have hps1 : presMem s1 t' j ↔ presMem s t' j := Iff.rfl
          rw [hps1, hinv.pres t' j]
          unfold liveHas
          rw [hlknew j]
          by_cases hj : id = j
          · subst hj
            rw [if_pos rfl]
            constructor
            · rintro ⟨⟨e', he', hht⟩, hne⟩
              obtain rfl : e = e' := by
                rw [hlk] at he'
                injection he'
              have htt' : ¬t' = t := fun hh => hne ⟨hh, rfl⟩
              refine ⟨⟨id, flt⟩, rfl, ?_⟩
              unfold Entity.hasType
              rw [hgflt t', if_neg htt']
              exact hht
            · rintro ⟨e', he', hht⟩
              obtain rfl : (⟨id, flt⟩ : Entity) = e' := by injection he'
              unfold Entity.hasType at hht
              rw [hgflt t'] at hht
              by_cases htt' : t' = t
              · rw [if_pos htt'] at hht
                exact absurd hht (by simp)
              · rw [if_neg htt'] at hht
                exact ⟨⟨e, hlk, hht⟩, fun hh => htt' hh.1⟩
          · rw [if_neg hj]
            constructor
            · rintro ⟨hlive, _⟩
              exact hlive
            · intro hlive
              exact ⟨hlive, fun hh => hj hh.2.symm⟩
        · exact hkr_htwf s1 id toRemove n hinv.htwf
        · intro t' ht' hlk'
          rw [hkr_cve_at] at hlk'
          by_cases htt' : t' = toRemove.ctype
          · rw [if_pos htt'] at hlk'
            rcases hcve : alookup s.componentValueEntities toRemove.ctype with _ | ht
            · rw [hcve] at hlk'
              exact Option.noConfusion hlk'
            · rw [hcve] at hlk'
              obtain rfl : (ht.remove toRemove id).1 = ht' := by injection hlk'
              intro d j
              rw [tblMem_remove ht toRemove id
                (hinv.htwf _ (mem_of_alookup hcve)) d j]
              rw [htt']
              rw [htr.2] at hcve ⊢
              rw [hinv.val t ht hcve d j]
              unfold liveHash
              rw [hlknew j]
              by_cases hj : id = j
              · subst hj
                rw [if_pos rfl]
                constructor
                · rintro ⟨⟨e', c', he', hgc', hch'⟩, hne⟩
                  exfalso
                  obtain rfl : e = e' := by
                    rw [hlk] at he'
                    injection he'
                  rw [hgc] at hgc'
                  obtain rfl : toRemove = c' := by injection hgc'
                  exact hne ⟨hch'.symm, rfl⟩
                · rintro ⟨e', c', he', hgc', _⟩
                  exfalso
                  obtain rfl : (⟨id, flt⟩ : Entity) = e' := by injection he'
                  rw [hgflt t, if_pos rfl] at hgc'
                  exact Option.noConfusion hgc'
              · rw [if_neg hj]
                constructor
                · rintro ⟨hlive, _⟩
                  exact hlive
                · intro hlive
                  exact ⟨hlive, fun hh => hj hh.2.symm⟩
          · rw [if_neg htt'] at hlk'
            intro d j
            rw [hinv.val t' ht' hlk' d j]
            unfold liveHash
            rw [hlknew j]
            by_cases hj : id = j
            · subst hj
              rw [if_pos rfl]
              have htne : ¬t' = t := by
                rw [← htr.2]
                exact htt'
              constructor
              · rintro ⟨e', c', he', hgc', hch'⟩
                obtain rfl : e = e' := by
                  rw [hlk] at he'
                  injection he'
                refine ⟨⟨id, flt⟩, c', rfl, ?_, hch'⟩
                rw [hgflt t', if_neg htne]
                exact hgc'
              · rintro ⟨e', c', he', hgc', hch'⟩
                obtain rfl : (⟨id, flt⟩ : Entity) = e' := by injection he'
                rw [hgflt t', if_neg htne] at hgc'
                exact ⟨e, c', hlk, hgc', hch'⟩
            · rw [if_neg hj]
      · refine ⟨⟨id, flt⟩, by rw [hlknew id, if_pos rfl], ?_⟩
        unfold Entity.hasType
        rw [hgflt t, if_pos rfl]
        rfl

theorem Inv_install (sR : EntityManager) (id : Nat) (c : Component) (eS : Entity)
    (hinv : Inv sR) (hlk : alookup sR.entities id = some eS)
    (habs : eS.hasType c.ctype = false) :
    Inv (housekeepAddComponent
      { sR with
        entities := aset sR.entities id (Entity.ofList id (excludeComponents sR id [c.ctype] ++ [c])) }
      id c).1 := by
  have hend : (eS.comps.map Component.ctype).Nodup :=
    hinv.entComps (id, eS) (mem_of_alookup hlk)
  have hfil := excludeComponents_single sR id c.ctype eS hlk
  set flt := eS.comps.filter (fun x => x.ctype ≠ c.ctype) with hfltdef
  have hfilnd : (flt.map Component.ctype).Nodup :=
    List.Nodup.sublist (List.Sublist.map _ (List.filter_sublist _)) hend
  have hfltne : ∀ x ∈ flt, x.ctype ≠ c.ctype := by
    intro x hx
    exact of_decide_eq_true (List.mem_filter.mp hx).2
  have hnd2 : ((flt ++ [c]).map Component.ctype).Nodup := by
    rw [List.map_append]
    apply nodup_append_singleton hfilnd
    intro hmem
    obtain ⟨x, hx, hxc⟩ := List.mem_map.mp hmem
    exact hfltne x hx hxc
  have hof : Entity.ofList id (excludeComponents sR id [c.ctype] ++ [c]) =
      ⟨id, flt ++ [c]⟩ := by
    rw [hfil]
    exact ofList_eq id _ hnd2
  have hge2 : ∀ t', (⟨id, flt ++ [c]⟩ : Entity).getComp t' =
      if t' = c.ctype then some c else eS.getComp t' := by
    intro t'
    by_cases ht' : t' = c.ctype
    · subst ht'
      rw [if_pos rfl]
      unfold Entity.getComp
      rw [mkE_comps]
      exact findc_append_last flt c hfltne
    · rw [if_neg ht']
      have h1 : (⟨id, flt ++ [c]⟩ : Entity).getComp t' = (⟨id, flt⟩ : Entity).getComp t' := by
        unfold Entity.getComp
        rw [mkE_comps, mkE_comps]
        exact findc_append_other flt c t' ht'
      rw [h1, getComp_filter eS id c.ctype t', if_neg ht']
  set s2 : EntityManager :=
    { sR with
      entities := aset sR.entities id (Entity.ofList id (excludeComponents sR id [c.ctype] ++ [c])) }
    with hs2
  have hent : (housekeepAddComponent s2 id c).1.entities =
      aset sR.entities id (⟨id, flt ++ [c]⟩ : Entity) := by
    rw [hka_entities, hs2, hof]
  have hlknew : ∀ j, alookup (housekeepAddComponent s2 id c).1.entities j =
      if id = j then some (⟨id, flt ++ [c]⟩ : Entity) else alookup sR.entities j := by
    intro j
    rw [hent, alookup_aset]
  refine ⟨?_, ?_, ?_, ?_, ?_, ?_, ?_⟩
  · rw [hent]
    exact keys_nodup_aset _ _ hinv.entKeys
  · rw [hent]
    intro p hp
    rcases mem_aset hp with rfl | hp'
    · rfl
    · exact hinv.entId p hp'
  · rw [hent]
    intro p hp
    rcases mem_aset hp with rfl | hp'
    · exact hnd2
    · exact hinv.entComps p hp'
  · exact hka_ceNodup s2 id c hinv.ceNodup
  · intro t' j
    rw [hka_presMem]
    have hps2 : presMem s2 t' j ↔ presMem sR t' j := Iff.rfl
    rw [hps2]
    unfold liveHas
    rw [hlknew j]
    by_cases hj : id = j
    · subst hj
      rw [if_pos rfl]
      constructor
      · rintro (hm | ⟨rfl, _⟩)
        · obtain ⟨e', he', hht⟩ := (hinv.pres t' id).mp hm
          obtain rfl : eS = e' := by
            rw [hlk] at he'
            injection he'
          refine ⟨⟨id, flt ++ [c]⟩, rfl, ?_⟩
          unfold Entity.hasType
          rw [hge2 t']
          by_cases ht' : t' = c.ctype
          · rw [if_pos ht']
            rfl
          · rw [if_neg ht']
            exact hht
        · refine ⟨⟨id, flt ++ [c]⟩, rfl, ?_⟩
          unfold Entity.hasType
          rw [hge2 c.ctype, if_pos rfl]
          rfl
      · rintro ⟨e', he', hht⟩
        obtain rfl : (⟨id, flt ++ [c]⟩ : Entity) = e' := by injection he'
        unfold Entity.hasType at hht
        rw [hge2 t'] at hht
        by_cases ht' : t' = c.ctype
        · exact Or.inr ⟨ht', rfl⟩
        · rw [if_neg ht'] at hht
          exact Or.inl ((hinv.pres t' id).mpr ⟨eS, hlk, hht⟩)
    · rw [if_neg hj]
      constructor
      · rintro (hm | ⟨_, rfl⟩)
        · exact (hinv.pres t' j).mp hm
        · exact absurd rfl hj
      · intro hlive
        exact Or.inl ((hinv.pres t' j).mpr hlive)
  · exact hka_htwf s2 id c hinv.htwf
  · intro t' ht' hlk'
    rw [hka_cve_at] at hlk'
    by_cases htt' : t' = c.ctype
    · rw [if_pos htt'] at hlk'
      rcases hcve : alookup sR.componentValueEntities c.ctype with _ | ht
      · rw [hcve] at hlk'
        exact Option.noConfusion hlk'
      · rw [hcve] at hlk'
        obtain rfl : ht.add c id = ht' := by injection hlk'
        subst htt'
        intro d j
        rw [tblMem_add, hinv.val c.ctype ht hcve d j]
        unfold liveHash
        rw [hlknew j]
        by_cases hj : id = j
        · subst hj
          rw [if_pos rfl]
          constructor
          · rintro (⟨e', c', he', hgc', hch'⟩ | ⟨rfl, _⟩)
            · exfalso
              obtain rfl : eS = e' := by
                rw [hlk] at he'
                injection he'
              unfold Entity.hasType at habs
              rw [hgc'] at habs
              exact absurd habs (by simp)
            · refine ⟨⟨id, flt ++ [c]⟩, c, rfl, ?_, rfl⟩
              rw [hge2 c.ctype, if_pos rfl]
          · rintro ⟨e', c', he', hgc', hch'⟩
            obtain rfl : (⟨id, flt ++ [c]⟩ : Entity) = e' := by injection he'
            rw [hge2 c.ctype, if_pos rfl] at hgc'
            obtain rfl : c = c' := by injection hgc'
            exact Or.inr ⟨hch'.symm, rfl⟩
        · rw [if_neg hj]
          constructor
          · rintro (hlive | ⟨_, rfl⟩)
            · exact hlive
            · exact absurd rfl hj
          · exact Or.inl
    · rw [if_neg htt'] at hlk'
      intro d j
      rw [hinv.val t' ht' hlk' d j]
      unfold liveHash
      rw [hlknew j]
      by_cases hj : id = j
      · subst hj
        rw [if_pos rfl]
        constructor
        · rintro ⟨e', c', he', hgc', hch'⟩
          obtain rfl : eS = e' := by
            rw [hlk] at he'
            injection he'
          refine ⟨⟨id, flt ++ [c]⟩, c', rfl, ?_, hch'⟩
          rw [hge2 t', if_neg htt']
          exact hgc'
        · rintro ⟨e', c', he', hgc', hch'⟩
          obtain rfl : (⟨id, flt ++ [c]⟩ : Entity) = e' := by injection he'
          rw [hge2 t', if_neg htt'] at hgc'
          exact ⟨eS, c', hlk, hgc', hch'⟩
      · rw [if_neg hj]

theorem Inv_setComponent (s : EntityManager) (id : Nat) (c : Component)
    (r : EntityManager × List Event) (hinv : Inv s)
    (h : setComponent s id c = Except.ok r) : Inv r.1 := by
  rcases hlk : alookup s.entities id with _ | e
  · simp only [setComponent, hlk] at h
    exact absurd h (by simp)
  · rcases hht : e.hasType c.ctype with _ | _
    · simp only [setComponent, hlk, hht, Bool.false_eq_true, if_false] at h
      obtain rfl : _ = r := by injection h
      exact Inv_install s id c e hinv hlk hht
    · rcases hrc : removeComponent s id c.ctype false with msg | rr
      · obtain ⟨r', hok⟩ := removeComponent_isOk s id c.ctype false e hlk
        rw [hok] at hrc
        exact absurd hrc (by simp)
      · obtain ⟨s', b', evs'⟩ := rr
        simp only [setComponent, hlk, hht, if_true, hrc] at h
        obtain rfl : _ = r := by injection h
        obtain ⟨hinv', e', hlk', habs'⟩ :=
          Inv_removeComponent s id c.ctype false (s', b', evs') hinv hrc
        exact Inv_install s' id c e' hinv' hlk' habs'

theorem alookup_mapSnd {α β : Type} [DecidableEq α] (f : β → β) (l : List (α × β)) (k : α) :
    alookup (l.map (fun p => (p.1, f (Prod.snd p)))) k = (alookup l k).map f := by
  induction l with
  | nil => simp [alookup]
  | cons q rest ih =>
    obtain ⟨a, b⟩ := q
    by_cases hak : a = k
    · simp [alookup, hak]
    · simpa [alookup, hak] using ih

theorem alookup_map_erase (l : List (String × List Nat)) (id : Nat) (k : String) :
    alookup (l.map (fun p => (p.1, (Prod.snd p : List Nat).erase id))) k =
      (alookup l k).map (fun x => x.erase id) :=
  alookup_mapSnd (fun x => x.erase id) l k

theorem getComp_mem (e : Entity) (t : String) (c : Component)
    (h : e.getComp t = some c) : c ∈ e.comps ∧ c.ctype = t := by
  unfold Entity.getComp at h
  refine ⟨List.mem_of_find?_eq_some h, ?_⟩
  have := List.find?_some h
  exact of_decide_eq_true this

theorem Inv_removeEntity (s : EntityManager) (id : Nat) (hinv : Inv s) :
    Inv (removeEntity s id).1 := by
  rcases hlk : alookup s.entities id with _ | e
  · unfold removeEntity
    rw [hlk]
    exact hinv
  · rw [removeEntity_fst s id e hlk]
    set s1 : EntityManager :=
      { s with
        entities := aerase s.entities id
        componentEntities := s.componentEntities.map (fun p => (p.1, (Prod.snd p).erase id)) }
      with hs1
    have hce1 : ∀ p ∈ s1.componentEntities, (Prod.snd p : List Nat).Nodup := by
      intro p hp
      obtain ⟨q, hq, rfl⟩ := List.mem_map.mp hp
      exact (hinv.ceNodup q hq).erase id
    have hlk1 : ∀ j, alookup s1.entities j =
        if id = j then none else alookup s.entities j := by
      intro j
      exact alookup_aerase s.entities id j hinv.entKeys
    have hpres1 : ∀ t' j, presMem s1 t' j ↔ presMem s t' j ∧ j ≠ id := by
      intro t' j
      unfold presMem
      rw [show s1.componentEntities =
        s.componentEntities.map (fun p => (p.1, (Prod.snd p : List Nat).erase id)) from rfl]
      rw [alookup_map_erase]
      rcases hq : alookup s.componentEntities t' with _ | ids
      · constructor
        · rintro ⟨l, hl, _⟩
          exact absurd hl (by simp)
        · rintro ⟨⟨l, hl, _⟩, _⟩
          exact absurd hl (by simp)
      · rw [show Option.map (fun x => x.erase id) (some ids) = some (ids.erase id) from rfl]
        rw [exists_some_mem, (hinv.ceNodup _ (mem_of_alookup hq)).mem_erase_iff]
        constructor
        · rintro ⟨hne, hj⟩
          exact ⟨exists_some_mem.mpr hj, hne⟩
        · rintro ⟨hm, hne⟩
          exact ⟨hne, exists_some_mem.mp hm⟩
    have hfin_ent : (hkrStates id s1 e.allComponents).entities = s1.entities := by
      rw [hkrStates_entities]
    refine ⟨?_, ?_, ?_, ?_, ?_, ?_, ?_⟩
    · rw [hfin_ent]
      exact List.Nodup.sublist ((aerase_sublist s.entities id).map Prod.fst) hinv.entKeys
    · rw [hfin_ent]
      intro p hp
      exact hinv.entId p ((aerase_sublist s.entities id).mem hp)
    · rw [hfin_ent]
      intro p hp
      exact hinv.entComps p ((aerase_sublist s.entities id).mem hp)
    · exact hkrStates_ceNodup id e.allComponents s1 hce1
    · intro t' j
      rw [hkrStates_presMem id e.allComponents s1 hce1 t' j, hpres1 t' j]
      unfold liveHas
      rw [hfin_ent, hlk1 j]
      by_cases hj : id = j
      · subst hj
        rw [if_pos rfl]
        constructor
        · rintro ⟨⟨_, hne⟩, _⟩
          exact absurd rfl hne
        · rintro ⟨_, h, _⟩
          exact Option.noConfusion h
      · rw [if_neg hj]
        constructor
        · rintro ⟨⟨hm, _⟩, _⟩
          exact (hinv.pres t' j).mp hm
        · intro hlive
          refine ⟨⟨(hinv.pres t' j).mpr hlive, fun hh => hj hh.symm⟩, ?_⟩
          rintro ⟨rfl, _⟩
          exact hj rfl
    · exact hkrStates_htwf id e.allComponents s1 hinv.htwf
    · intro t' ht' hlk'
      rcases hcve : alookup s.componentValueEntities t' with _ | ht
      · rw [hkrStates_cve_none id e.allComponents s1 t' hcve] at hlk'
        exact Option.noConfusion hlk'
      · obtain ⟨ht2, hlk2, hiff2⟩ :=
          hkrStates_tblMem id e.allComponents s1 hinv.htwf t' ht hcve
        rw [hlk2] at hlk'
        obtain rfl : ht2 = ht' := by injection hlk'
        intro d j
        rw [hiff2, hinv.val t' ht hcve d j]
        unfold liveHash
        rw [hfin_ent, hlk1 j]
        by_cases hj : id = j
        · subst hj
          rw [if_pos rfl]
          constructor
          · rintro ⟨⟨e', c', he', hgc', hch'⟩, hne⟩
            exfalso
            obtain rfl : e = e' := by
              rw [hlk] at he'
              injection he'
            obtain ⟨hcm, hct⟩ := getComp_mem e t' c' hgc'
            refine hne ⟨rfl, (c'.ctype, c'), ?_, hct, hch'⟩
            unfold Entity.allComponents
            exact List.mem_map.mpr ⟨c', hcm, rfl⟩
          · rintro ⟨_, c', h, _⟩
            exact Option.noConfusion h
        · rw [if_neg hj]
          constructor
          · rintro ⟨hlive, _⟩
            exact hlive
          · intro hlive
            refine ⟨hlive, ?_⟩
            rintro ⟨rfl, _⟩
            exact hj rfl

theorem add_keys_toFinset (tb : HashTable) (key : Component) (i : Nat) :
    ((tb.add key i).values.map Prod.fst).toFinset =
      insert key.hashv (tb.values.map Prod.fst).toFinset := by
  rw [add_values]
  by_cases hk : key.hashv ∈ tb.values.map Prod.fst
  · rw [keys_aset_of_mem _ hk]
    rw [Finset.insert_eq_self.mpr (List.mem_toFinset.mpr hk)]
  · rw [keys_aset_of_not_mem _ hk]
    ext x
    simp [or_comm]

theorem indexBuild (s : EntityManager) (t : String) (ids : List Nat) :
    ∀ acc : HashTable × Nat,
      (∀ i ∈ ids, ((alookup s.entities i).bind (fun e => e.getComp t)).isSome = true) →
      ∃ ht n, ids.foldl (fun (acc : Option (HashTable × Nat)) id =>
          acc.bind (fun p =>
            match (alookup s.entities id).bind (fun e => e.getComp t) with
            | none => none
            | some c => some (p.1.add c id, p.2 + 1))) (some acc) = some (ht, n) ∧
        n = acc.2 + ids.length ∧
        (HTWF acc.1 → HTWF ht) ∧
        (∀ d j, tblMem ht d j ↔ tblMem acc.1 d j ∨
          (j ∈ ids ∧ ∃ c, (alookup s.entities j).bind (fun e => e.getComp t) = some c ∧
            c.hashv = d)) ∧
        (ht.values.map Prod.fst).toFinset =
          (acc.1.values.map Prod.fst).toFinset ∪
            (ids.filterMap (fun i =>
              ((alookup s.entities i).bind (fun e => e.getComp t)).map
                Component.hashv)).toFinset := by
  induction ids with
  | nil =>
    intro acc _
    refine ⟨acc.1, acc.2, rfl, rfl, fun h => h, ?_, by simp⟩
    intro d j
    constructor
    · exact Or.inl
    · rintro (h | ⟨hj, _⟩)
      · exact h
      · exact absurd hj (by simp)
  | cons i rest ih =>
    intro acc hall
    obtain ⟨c, hc⟩ := Option.isSome_iff_exists.mp (hall i (List.mem_cons_self _ _))
    have hstep : ((some acc).bind (fun (p : HashTable × Nat) =>
        match (alookup s.entities i).bind (fun e => e.getComp t) with
        | none => none
        | some c => some (p.1.add c i, p.2 + 1))) =
        some (acc.1.add c i, acc.2 + 1) := by
      show (match (alookup s.entities i).bind (fun e => e.getComp t) with
        | none => none
        | some cc => some (acc.1.add cc i, acc.2 + 1)) = some (acc.1.add c i, acc.2 + 1)
      rw [hc]
    obtain ⟨ht, n, heq, hn, hwf, hiff, hkeys⟩ :=
      ih (acc.1.add c i, acc.2 + 1) (fun x hx => hall x (List.mem_cons_of_mem _ hx))
    refine ⟨ht, n, ?_, ?_, ?_, ?_, ?_⟩
    · rw [List.foldl_cons, hstep]
      exact heq
    · rw [hn]
      simp only [List.length_cons]
      omega
    · intro h
      exact hwf (HTWF_add acc.1 c i h)
    · intro d j
      rw [hiff d j, tblMem_add]
      constructor
      · rintro ((h | ⟨rfl, rfl⟩) | ⟨hj, c', hc', hch'⟩)
        · exact Or.inl h
        · exact Or.inr ⟨List.mem_cons_self _ _, c, hc, rfl⟩
        · exact Or.inr ⟨List.mem_cons_of_mem _ hj, c', hc', hch'⟩
      · rintro (h | ⟨hj, c', hc', hch'⟩)
        · exact Or.inl (Or.inl h)
        · rcases List.mem_cons.mp hj with rfl | hj'
          · rw [hc] at hc'
            obtain rfl : c = c' := by injection hc'
            exact Or.inl (Or.inr ⟨hch'.symm, rfl⟩)
          · exact Or.inr ⟨hj', c', hc', hch'⟩
    · rw [hkeys, add_keys_toFinset]
      have hfm : List.filterMap (fun i => Option.map Component.hashv
            ((alookup s.entities i).bind (fun e => e.getComp t))) (i :: rest) =
          c.hashv :: List.filterMap (fun i => Option.map Component.hashv
            ((alookup s.entities i).bind (fun e => e.getComp t))) rest := by
        simp only [List.filterMap_cons, hc, Option.map_some']
      rw [hfm]
      rw [List.toFinset_cons]
      ext x
      simp only [Finset.mem_union, Finset.mem_insert]
      constructor
      · rintro ((rfl | h) | h)
        · exact Or.inr (Or.inl rfl)
        · exact Or.inl h
        · exact Or.inr (Or.inr h)
      · rintro (h | (rfl | h))
        · exact Or.inl (Or.inr h)
        · exact Or.inl (Or.inl rfl)
        · exact Or.inr h

theorem indexBy_characterize (s : EntityManager) (t : String)
    (hres : ∀ i ∈ (alookup s.componentEntities t).getD [],
      ((alookup s.entities i).bind (fun e => e.getComp t)).isSome = true) :
    ∃ ht info, indexBy s t =
        some ({ s with componentValueEntities := aset s.componentValueEntities t ht },
          info) ∧
      HTWF ht ∧
      (∀ d j, tblMem ht d j ↔ j ∈ (alookup s.componentEntities t).getD [] ∧
        ∃ c, (alookup s.entities j).bind (fun e => e.getComp t) = some c ∧ c.hashv = d) ∧
      info.totalComponents = ((alookup s.componentEntities t).getD []).length ∧
      info.uniqueComponentValues =
        (((alookup s.componentEntities t).getD []).filterMap (fun i =>
          ((alookup s.entities i).bind (fun e => e.getComp t)).map
            Component.hashv)).toFinset.card := by
  obtain ⟨ht, n, heq, hn, hwf, hiff, hkeys⟩ :=
    indexBuild s t ((alookup s.componentEntities t).getD []) (⟨[]⟩, 0) hres
  have hwf' : HTWF ht := hwf HTWF_empty
  refine ⟨ht, ⟨ht.countKeys, n⟩, ?_, hwf', ?_, ?_, ?_⟩
  · simp only [indexBy]
    rw [heq]
    rfl
  · intro d j
    rw [hiff d j]
    constructor
    · rintro (h | h)
      · obtain ⟨b, hb, _⟩ := h
        exact absurd hb (by simp [alookup])
      · exact h
    · exact Or.inr
  · rw [hn]
    exact Nat.zero_add _
  · have hnodup : (ht.values.map Prod.fst).Nodup := hwf'.1
    show ht.countKeys = _
    unfold HashTable.countKeys
    rw [show ht.values.length = (ht.values.map Prod.fst).length from
      (List.length_map _ _).symm]
    rw [← List.toFinset_card_of_nodup hnodup, hkeys]
    rw [show (((⟨[]⟩ : HashTable), 0).1.values.map Prod.fst).toFinset = (∅ : Finset String)
      from rfl]
    rw [Finset.empty_union]

theorem indexBy_ok_of_Inv (s : EntityManager) (t : String) (hinv : Inv s) :
    ∃ ht info, indexBy s t =
        some ({ s with componentValueEntities := aset s.componentValueEntities t ht }, info) ∧
      HTWF ht ∧ (∀ d j, tblMem ht d j ↔ liveHash s t d j) := by
  have hres : ∀ i ∈ (alookup s.componentEntities t).getD [],
      ((alookup s.entities i).bind (fun e => e.getComp t)).isSome = true := by
    intro i hi
    obtain ⟨e, he, hht⟩ := (hinv.pres t i).mp ((mem_getD_iff_presMem s t i).mp hi)
    rw [he]
    exact hht
  obtain ⟨ht, info, heq, hwf, hmem, _, _⟩ := indexBy_characterize s t hres
  refine ⟨ht, info, heq, hwf, ?_⟩
  intro d j
  rw [hmem d j]
  constructor
  · rintro ⟨hj, c, hc, hch⟩
    rcases he : alookup s.entities j with _ | e
    · rw [he] at hc
      exact absurd hc (by simp)
    · rw [he] at hc
      exact ⟨e, c, he, hc, hch⟩
  · rintro ⟨e, c, he, hgc, hch⟩
    refine ⟨?_, c, ?_, hch⟩
    · exact (mem_getD_iff_presMem s t j).mpr ((hinv.pres t j).mpr
        ⟨e, he, by simp [Entity.hasType, hgc]⟩)
    · rw [he]
      exact hgc

theorem Inv_indexBy (s : EntityManager) (t : String)
    (r : EntityManager × ComponentIndexingInfo) (hinv : Inv s)
    (h : indexBy s t = some r) : Inv r.1 := by
  obtain ⟨ht, info, heq, hwf, hmem⟩ := indexBy_ok_of_Inv s t hinv
  rw [heq] at h
  obtain rfl :
      ({ s with componentValueEntities := aset s.componentValueEntities t ht }, info) = r := by
    injection h
  refine ⟨hinv.entKeys, hinv.entId, hinv.entComps, hinv.ceNodup, hinv.pres, ?_, ?_⟩
  · intro p hp
    rcases mem_aset hp with rfl | hp'
    · exact hwf
    · exact hinv.htwf p hp'
  · intro t' ht' hlk d id
    rw [show ({ s with componentValueEntities := aset s.componentValueEntities t ht } :
        EntityManager).componentValueEntities = aset s.componentValueEntities t ht from rfl,
      alookup_aset] at hlk
    by_cases hk : t = t'
    · subst hk
      rw [if_pos rfl] at hlk
      obtain rfl : ht = ht' := by injection hlk
      exact hmem d id
    · rw [if_neg hk] at hlk
      exact hinv.val t' ht' hlk d id

theorem Inv_applyOp (s : EntityManager) (op : Op) (hinv : Inv s) (hidb : IdB s)
    (hop : wfOp op = true) : Inv (applyOp s op) := by
  cases op with
  | create cs =>
    have hnodup : (cs.map Component.ctype).Nodup := by
      simpa [wfOp] using hop
    exact Inv_createEntity s cs hinv hidb hnodup
  | setComp id c =>
    simp only [applyOp]
    rcases h : setComponent s id c with msg | r
    · exact hinv
    · exact Inv_setComponent s id c r hinv h
  | removeComp id t =>
    simp only [applyOp]
    rcases h : removeComponent s id t true with msg | r
    · exact hinv
    · exact (Inv_removeComponent s id t true r hinv h).1
  | removeEnt id => exact Inv_removeEntity s id hinv
  | indexOp t =>
    simp only [applyOp]
    rcases h : indexBy s t with _ | r
    · exact hinv
    · exact Inv_indexBy s t r hinv h

theorem Good_run (ops : List Op) :
    ∀ s : EntityManager, Inv s → IdB s → WFOps ops → Inv (run s ops) ∧ IdB (run s ops) := by
  induction ops with
  | nil =>
    intro s h1 h2 _
    exact ⟨h1, h2⟩
  | cons op rest ih =>
    intro s h1 h2 hwf
    rw [run_cons]
    exact ih _ (Inv_applyOp s op h1 h2 (hwf op (List.mem_cons_self _ _)))
      (IdB_applyOp s op h2) (fun o ho => hwf o (List.mem_cons_of_mem _ ho))

/-- C1 (amended): after any sequence of create / setComponent / removeComponent /
remove / indexBy operations from a fresh manager, provided no create call passes
two components of the same constructor, for every component type with a
configured value index, matchingIndex of a value of that type returns exactly
the entities whose current component of the type hashes to the digest of the
value: the returned id set is duplicate-free and an id is included iff its
stored entity currently holds a component of the type with that digest. -/
theorem C1_value_index_exact (ops : List Op) (v : Component) (hwf : WFOps ops)
    (hconf : (alookup (run initEM ops).componentValueEntities v.ctype).isSome = true) :
    ∃ ids : List Nat,
      matchingIndex (run initEM ops) v =
        Except.ok (ids.map (fun id => alookup (run initEM ops).entities id)) ∧
      ids.Nodup ∧
      ∀ id, id ∈ ids ↔ liveHash (run initEM ops) v.ctype v.hashv id := by
  obtain ⟨hinv, _⟩ := Good_run ops initEM Inv_initEM IdB_initEM hwf
  rcases hlk : alookup (run initEM ops).componentValueEntities v.ctype with _ | ht
  · rw [hlk] at hconf
    exact absurd hconf (by simp)
  · refine ⟨ht.get v, ?_, ?_, ?_⟩
    · simp only [matchingIndex, hlk]
    · unfold HashTable.get
      rcases hb : alookup ht.values v.hashv with _ | b
      · simp
      · simp only [Option.getD_some]
        exact (hinv.htwf (v.ctype, ht) (mem_of_alookup hlk)).2 (v.hashv, b) (mem_of_alookup hb)
    · intro id
      rw [← hinv.val v.ctype ht hlk v.hashv id]
      unfold HashTable.get tblMem
      rcases hb : alookup ht.values v.hashv with _ | b
      · simp
      · simp only [Option.getD_some]
        exact exists_some_mem.symm

theorem C1_witness :
    WFOps [Op.create [Component.mk "Position" 11 "1,1"], Op.indexOp "Position"] ∧
    (alookup (run initEM [Op.create [Component.mk "Position" 11 "1,1"],
        Op.indexOp "Position"]).componentValueEntities "Position").isSome = true ∧
    ∃ ids : List Nat,
      matchingIndex (run initEM [Op.create [Component.mk "Position" 11 "1,1"],
          Op.indexOp "Position"]) (Component.mk "Position" 11 "1,1") =
        Except.ok (ids.map (fun id =>
          alookup (run initEM [Op.create [Component.mk "Position" 11 "1,1"],
            Op.indexOp "Position"]).entities id)) ∧
      ids.Nodup ∧
      ∀ id, id ∈ ids ↔ liveHash (run initEM [Op.create [Component.mk "Position" 11 "1,1"],
        Op.indexOp "Position"]) "Position" "1,1" id :=
  ⟨by decide, by rfl,
   C1_value_index_exact [Op.create [Component.mk "Position" 11 "1,1"], Op.indexOp "Position"]
     (Component.mk "Position" 11 "1,1") (by decide) (by rfl)⟩

/-- Counterexample to the unamended C1: a create call passing two components of
the same constructor indexes both hashes for the new id, while the entity keeps
only the last component; matchingIndex for the first value then returns the
entity although its current component hashes differently. -/
theorem C1_counterexample :
    (run initEM [Op.indexOp "Position",
        Op.create [Component.mk "Position" 11 "1,1",
          Component.mk "Position" 22 "2,2"]]).entities =
      [(0, Entity.mk 0 [Component.mk "Position" 22 "2,2"])] ∧
    matchingIndex (run initEM [Op.indexOp "Position",
        Op.create [Component.mk "Position" 11 "1,1", Component.mk "Position" 22 "2,2"]])
      (Component.mk "Position" 11 "1,1") =
      Except.ok [some (Entity.mk 0 [Component.mk "Position" 22 "2,2"])] ∧
    ¬ liveHash (run initEM [Op.indexOp "Position",
        Op.create [Component.mk "Position" 11 "1,1", Component.mk "Position" 22 "2,2"]])
      "Position" "1,1" 0 := by
  refine ⟨rfl, rfl, ?_⟩
  rintro ⟨e, c, he, hc, hch⟩
  have h2 : some (Entity.mk 0 [Component.mk "Position" 22 "2,2"]) = some e := he
  obtain rfl := Option.some.inj h2
  have h3 : some (Component.mk "Position" 22 "2,2") = some c := hc
  obtain rfl := Option.some.inj h3
  exact absurd hch (by decide)

/-- C5: indexBy replaces any prior value index for the type with a fresh one
built by scanning exactly the ids of the presence index of the type, and
reports the number of ids scanned as totalComponents and the number of
distinct digests among their current components as uniqueComponentValues. -/
theorem C5_indexBy_rebuild (s : EntityManager) (t : String)
    (hres : ∀ i ∈ (alookup s.componentEntities t).getD [],
      ((alookup s.entities i).bind (fun e => e.getComp t)).isSome = true) :
    ∃ ht info, indexBy s t =
        some ({ s with componentValueEntities := aset s.componentValueEntities t ht }, info) ∧
      alookup (aset s.componentValueEntities t ht) t = some ht ∧
      (∀ d j, tblMem ht d j ↔ j ∈ (alookup s.componentEntities t).getD [] ∧
        ∃ c, (alookup s.entities j).bind (fun e => e.getComp t) = some c ∧ c.hashv = d) ∧
      info.totalComponents = ((alookup s.componentEntities t).getD []).length ∧
      info.uniqueComponentValues =
        (((alookup s.componentEntities t).getD []).filterMap (fun i =>
          ((alookup s.entities i).bind (fun e => e.getComp t)).map
            Component.hashv)).toFinset.card := by
  obtain ⟨ht, info, heq, hwf, hmem, htot, huniq⟩ := indexBy_characterize s t hres
  refine ⟨ht, info, heq, ?_, hmem, htot, huniq⟩
  rw [alookup_aset, if_pos rfl]

theorem C5_witness :
    (∀ i ∈ (alookup c5State.componentEntities "Position").getD [],
      ((alookup c5State.entities i).bind (fun e => e.getComp "Position")).isSome = true) ∧
    (∃ ht info, indexBy c5State "Position" =
        some ({ c5State with
          componentValueEntities := aset c5State.componentValueEntities "Position" ht }, info) ∧
      alookup (aset c5State.componentValueEntities "Position" ht) "Position" = some ht ∧
      (∀ d j, tblMem ht d j ↔ j ∈ (alookup c5State.componentEntities "Position").getD [] ∧
        ∃ c, (alookup c5State.entities j).bind (fun e => e.getComp "Position") = some c ∧
          c.hashv = d) ∧
      info.totalComponents = ((alookup c5State.componentEntities "Position").getD []).length ∧
      info.uniqueComponentValues =
        (((alookup c5State.componentEntities "Position").getD []).filterMap (fun i =>
          ((alookup c5State.entities i).bind (fun e => e.getComp "Position")).map
            Component.hashv)).toFinset.card) ∧
    (indexBy c5State "Position").map Prod.snd = some (ComponentIndexingInfo.mk 3 4) :=
  ⟨by decide, C5_indexBy_rebuild c5State "Position" (by decide), by rfl⟩

theorem aset_append {α β : Type} [DecidableEq α] (l : List (α × β)) (k : α) (v : β)
    (h : k ∉ l.map Prod.fst) : aset l k v = l ++ [(k, v)] := by
  induction l with
  | nil => rfl
  | cons q t ih =>
    obtain ⟨a, b⟩ := q
    have hak : a ≠ k := fun hh => h (by simp [hh])
    have ht : k ∉ t.map Prod.fst := fun hk => h (by simp [hk])
    rw [aset_cons, if_neg hak, ih ht, List.cons_append]

theorem serialize_comps (e : Entity) :
    e.allComponents.map (fun q => (q.1, (Prod.snd q).data)) =
      e.comps.map (fun c => (c.ctype, c.data)) := by
  unfold Entity.allComponents
  rw [List.map_map]
  rfl

theorem buildComponents_exact (reg : Registry) (cs : List Component)
    (h : ∀ c ∈ cs, ∃ ctor, reg c.ctype = some ctor ∧ ctor c.data = c) :
    buildComponents reg (cs.map (fun c => (c.ctype, c.data))) = Except.ok cs := by
  induction cs with
  | nil => rfl
  | cons c rest ih =>
    obtain ⟨ctor, hr, hc⟩ := h c (List.mem_cons_self _ _)
    have ih' := ih (fun x hx => h x (List.mem_cons_of_mem _ hx))
    rw [List.map_cons]
    simp only [buildComponents, hr, ih']
    show Except.ok (ctor c.data :: rest) = Except.ok (c :: rest)
    rw [hc]

theorem hka_cve_keys (s : EntityManager) (id : Nat) (c : Component) :
    (housekeepAddComponent s id c).1.componentValueEntities.map Prod.fst =
      s.componentValueEntities.map Prod.fst := by
  rw [hka_cve]
  rcases h : alookup s.componentValueEntities c.ctype with _ | ht
  · rfl
  · exact keys_aset_of_mem _ (key_mem_of_alookup h)

theorem hkaStates_cve_keys (id : Nat) (cs : List Component) :
    ∀ s : EntityManager,
      (hkaStates id s cs).componentValueEntities.map Prod.fst =
        s.componentValueEntities.map Prod.fst := by
  induction cs with
  | nil => intro s; rfl
  | cons c rest ih =>
    intro s
    rw [hkaStates_cons, ih]
    exact hka_cve_keys s id c

theorem mcreate_entities (s : EntityManager) (id : Nat) (cs : List Component) :
    (mcreateEntity s id cs).1.entities = aset s.entities id (Entity.ofList id cs) := by
  rw [mcreate_fst, hkaStates_entities]

theorem mcreate_cve_keys (s : EntityManager) (id : Nat) (cs : List Component) :
    (mcreateEntity s id cs).1.componentValueEntities.map Prod.fst =
      s.componentValueEntities.map Prod.fst := by
  rw [mcreate_fst, hkaStates_cve_keys]

theorem importEntities_exact (reg : Registry) (ents : List (Nat × Entity)) :
    ∀ (s0 : EntityManager) (h0 : Nat),
    Inv s0 →
    (∀ p ∈ ents, alookup s0.entities p.1 = none) →
    (ents.map Prod.fst).Nodup →
    (∀ p ∈ ents, (Prod.snd p : Entity).id = p.1) →
    (∀ p ∈ ents, ((Prod.snd p : Entity).comps.map Component.ctype).Nodup) →
    (∀ p ∈ ents, ∀ c ∈ (Prod.snd p : Entity).comps,
      ∃ ctor, reg c.ctype = some ctor ∧ ctor c.data = c) →
    ∃ s1 h1,
      importEntities reg (ents.map (fun p =>
          (p.1, (Prod.snd p).allComponents.map (fun q => (q.1, (Prod.snd q).data))))) s0 h0 =
        (s1, Except.ok h1) ∧
      Inv s1 ∧ s1.entities = s0.entities ++ ents ∧
      s1.componentValueEntities.map Prod.fst = s0.componentValueEntities.map Prod.fst ∧
      h0 ≤ h1 ∧ (∀ p ∈ ents, p.1 ≤ h1) := by
  induction ents with
  | nil =>
    intro s0 h0 hinv _ _ _ _ _
    refine ⟨s0, h0, rfl, hinv, by simp, rfl, le_refl _, ?_⟩
    intro p hp
    exact absurd hp (List.not_mem_nil p)
  | cons p rest ih =>
    obtain ⟨id, e⟩ := p
    intro s0 h0 hinv hfresh hnodup hid hcomps hreg
    have hide : e.id = id := hid (id, e) (List.mem_cons_self _ _)
    have hcompse : (e.comps.map Component.ctype).Nodup :=
      hcomps (id, e) (List.mem_cons_self _ _)
    have hbc : buildComponents reg
        (e.allComponents.map (fun q => (q.1, (Prod.snd q).data))) = Except.ok e.comps := by
      rw [serialize_comps]
      exact buildComponents_exact reg e.comps (hreg (id, e) (List.mem_cons_self _ _))
    have hfr : alookup s0.entities id = none := hfresh (id, e) (List.mem_cons_self _ _)
    have hee : Entity.mk id e.comps = e := by rw [← hide]
    have hstepent : (mcreateEntity s0 id e.comps).1.entities = s0.entities ++ [(id, e)] := by
      rw [mcreate_entities, ofList_eq id e.comps hcompse, hee]
      exact aset_append s0.entities id e ((alookup_eq_none_iff _ _).mp hfr)
    have hinv1 : Inv (mcreateEntity s0 id e.comps).1 :=
      Inv_mcreate s0 id e.comps hinv hcompse hfr
    rw [List.map_cons] at hnodup
    have hidnotin : id ∉ rest.map Prod.fst := (List.nodup_cons.mp hnodup).1
    have hfresh' : ∀ q ∈ rest, alookup (mcreateEntity s0 id e.comps).1.entities q.1 = none := by
      intro q hq
      rw [hstepent, alookup_eq_none_iff, List.map_append, List.mem_append]
      rintro (hm | hm)
      · exact (alookup_eq_none_iff _ _).mp (hfresh q (List.mem_cons_of_mem _ hq)) hm
      · simp only [List.map_cons, List.map_nil, List.mem_singleton] at hm
        have h1 : q.1 ∈ rest.map Prod.fst := List.mem_map_of_mem Prod.fst hq
        rw [hm] at h1
        exact hidnotin h1
    obtain ⟨s1, h1, hrec, hinv2, hent, hcvek, hle, hmax⟩ :=
      ih (mcreateEntity s0 id e.comps).1 (max h0 id) hinv1 hfresh'
        (List.nodup_cons.mp hnodup).2
        (fun q hq => hid q (List.mem_cons_of_mem _ hq))
        (fun q hq => hcomps q (List.mem_cons_of_mem _ hq))
        (fun q hq => hreg q (List.mem_cons_of_mem _ hq))
    refine ⟨s1, h1, ?_, hinv2, ?_, ?_, ?_, ?_⟩
    · rw [List.map_cons]
      simp only [importEntities, hbc]
      exact hrec
    · rw [hent, hstepent, List.append_assoc, List.singleton_append]
    · rw [hcvek, mcreate_cve_keys]
    · exact le_trans (le_max_left h0 id) hle
    · intro q hq
      rcases List.mem_cons.mp hq with rfl | hq'
      · exact le_trans (le_max_right h0 id) hle
      · exact hmax q hq'

theorem importIndexes_ok (reg : Registry) (names : List String) :
    ∀ s0 : EntityManager, Inv s0 → (∀ n ∈ names, (reg n).isSome = true) →
    ∃ s2, importIndexes reg names s0 = (s2, none) ∧ Inv s2 ∧
      s2.entities = s0.entities ∧
      s2.componentValueEntities.map Prod.fst =
        names.foldl (fun ks n => if n ∈ ks then ks else ks ++ [n])
          (s0.componentValueEntities.map Prod.fst) := by
  induction names with
  | nil =>
    intro s0 hinv _
    exact ⟨s0, rfl, hinv, rfl, rfl⟩
  | cons n rest ih =>
    intro s0 hinv hr
    have hn := hr n (List.mem_cons_self _ _)
    rcases hrn : reg n with _ | ctor
    · rw [hrn] at hn
      exact absurd hn (by simp)
    · obtain ⟨ht, info, heq, _hwf, _hmem⟩ := indexBy_ok_of_Inv s0 n hinv
      have hinv' :
          Inv ({ s0 with componentValueEntities := aset s0.componentValueEntities n ht }) :=
        Inv_indexBy s0 n _ hinv heq
      obtain ⟨s2, hrec, hinv2, hent, hkeys⟩ :=
        ih _ hinv' (fun m hm => hr m (List.mem_cons_of_mem _ hm))
      refine ⟨s2, ?_, hinv2, hent, ?_⟩
      · simp only [importIndexes, hrn, heq]
        exact hrec
      · rw [hkeys, List.foldl_cons]
        have hacc : ({ s0 with componentValueEntities := aset s0.componentValueEntities n ht } :
            EntityManager).componentValueEntities.map Prod.fst =
            (if n ∈ s0.componentValueEntities.map Prod.fst
             then s0.componentValueEntities.map Prod.fst
             else s0.componentValueEntities.map Prod.fst ++ [n]) := by
          show (aset s0.componentValueEntities n ht).map Prod.fst = _
          by_cases hmem : n ∈ s0.componentValueEntities.map Prod.fst
          · rw [if_pos hmem, keys_aset_of_mem _ hmem]
          · rw [if_neg hmem, keys_aset_of_not_mem _ hmem]
        rw [hacc]

theorem foldl_insert_keys (names : List String) :
    ∀ acc : List String, names.Nodup → (∀ n ∈ names, n ∉ acc) →
      names.foldl (fun ks n => if n ∈ ks then ks else ks ++ [n]) acc = acc ++ names := by
  induction names with
  | nil =>
    intro acc _ _
    simp
  | cons n rest ih =>
    intro acc hnd hdisj
    have hih := ih (acc ++ [n]) (List.nodup_cons.mp hnd).2 ?_
    · rw [List.foldl_cons, if_neg (hdisj n (List.mem_cons_self _ _)), hih,
        List.append_assoc, List.singleton_append]
    · intro m hm hmem
      rcases List.mem_append.mp hmem with h' | h'
      · exact hdisj m (List.mem_cons_of_mem _ hm) h'
      · rw [List.mem_singleton] at h'
        subst h'
        exact (List.nodup_cons.mp hnd).1 hm

/-- C3: exporting a manager whose stored state is internally consistent
(distinct entity keys, entities keyed by their own id, one component per
constructor, distinct value-index names) and importing the result on a fresh
manager with a registry that rebuilds every involved component exactly and
covers every indexed name reproduces the same entity list — same ids, same
component values — and the same indexed-type list, and leaves the id counter
strictly above every imported id. -/
theorem C3_roundtrip (s : EntityManager) (reg : Registry)
    (hkeys : (s.entities.map Prod.fst).Nodup)
    (hid : ∀ p ∈ s.entities, (Prod.snd p : Entity).id = p.1)
    (hcomps : ∀ p ∈ s.entities, ((Prod.snd p : Entity).comps.map Component.ctype).Nodup)
    (hcve : (s.componentValueEntities.map Prod.fst).Nodup)
    (hreg : ∀ p ∈ s.entities, ∀ c ∈ (Prod.snd p : Entity).comps,
      ∃ ctor, reg c.ctype = some ctor ∧ ctor c.data = c)
    (hregIdx : ∀ n ∈ s.componentValueEntities.map Prod.fst, (reg n).isSome = true) :
    ∃ s' h, fromData (toData s) reg initEM = (s', Except.ok h) ∧
      s'.entities = s.entities ∧
      s'.componentValueEntities.map Prod.fst = s.componentValueEntities.map Prod.fst ∧
      ∀ p ∈ s.entities, p.1 < s'.currId := by
  obtain ⟨s1, h1, himp, hinv1, hent1, hcvek1, _, hmax⟩ :=
    importEntities_exact reg s.entities initEM 0 Inv_initEM (fun p _ => alookup_nil _)
      hkeys hid hcomps hreg
  obtain ⟨s2, hidx, hinv2, hent2, hkeys2⟩ :=
    importIndexes_ok reg (s.componentValueEntities.map Prod.fst) s1 hinv1 hregIdx
  refine ⟨{ s2 with currId := h1 + 1 }, h1, ?_, ?_, ?_, ?_⟩
  · simp only [fromData, clearEM, toData, himp, hidx]
  · show s2.entities = s.entities
    rw [hent2, hent1]
    rfl
  · show s2.componentValueEntities.map Prod.fst = s.componentValueEntities.map Prod.fst
    rw [hkeys2, hcvek1]
    have : (initEM.componentValueEntities.map Prod.fst : List String) = [] := rfl
    rw [this]
    rw [foldl_insert_keys _ [] hcve (fun n _ hn => (List.not_mem_nil n) hn)]
    rfl
  · intro p hp
    have := hmax p hp
    show p.1 < h1 + 1
    omega

theorem C3_witness :
    ((c3S.entities.map Prod.fst).Nodup) ∧
    (∀ p ∈ c3S.entities, (Prod.snd p : Entity).id = p.1) ∧
    (∀ p ∈ c3S.entities, ((Prod.snd p : Entity).comps.map Component.ctype).Nodup) ∧
    ((c3S.componentValueEntities.map Prod.fst).Nodup) ∧
    (∀ p ∈ c3S.entities, ∀ c ∈ (Prod.snd p : Entity).comps,
      ∃ ctor, c3Reg c.ctype = some ctor ∧ ctor c.data = c) ∧
    (∀ n ∈ c3S.componentValueEntities.map Prod.fst, (c3Reg n).isSome = true) ∧
    (∃ s' h, fromData (toData c3S) c3Reg initEM = (s', Except.ok h) ∧
      s'.entities = c3S.entities ∧
      s'.componentValueEntities.map Prod.fst = c3S.componentValueEntities.map Prod.fst ∧
      ∀ p ∈ c3S.entities, p.1 < s'.currId) := by
  have hreg : ∀ p ∈ c3S.entities, ∀ c ∈ (Prod.snd p : Entity).comps,
      ∃ ctor, c3Reg c.ctype = some ctor ∧ ctor c.data = c := by
    intro p hp c hc
    rw [show c3S.entities = [(0, Entity.mk 0 [Component.mk "Position" 11 "1,1"])] from rfl,
      List.mem_singleton] at hp
    subst hp
    rw [show ((Prod.snd ((0 : Nat), Entity.mk 0 [Component.mk "Position" 11 "1,1"])) :
        Entity).comps = [Component.mk "Position" 11 "1,1"] from rfl,
      List.mem_singleton] at hc
    subst hc
    exact ⟨fun d => Component.mk "Position" d "1,1", rfl, rfl⟩
  have hidx : ∀ n ∈ c3S.componentValueEntities.map Prod.fst, (c3Reg n).isSome = true := by
    intro n hn
    rw [show c3S.componentValueEntities.map Prod.fst = ["Position"] from rfl,
      List.mem_singleton] at hn
    subst hn
    rfl
  exact ⟨by decide, by decide, by decide, by decide, hreg, hidx,
    C3_roundtrip c3S c3Reg (by decide) (by decide) (by decide) (by decide) hreg hidx⟩

theorem buildComponents_error_of_missing (reg : Registry) (comps : List (String × Nat))
    (hmiss : ∃ q ∈ comps, reg q.1 = none) :
    ∃ msg, buildComponents reg comps = Except.error msg := by
  induction comps with
  | nil => obtain ⟨q, hq, _⟩ := hmiss; exact absurd hq (by simp)
  | cons q0 rest ih =>
    obtain ⟨n0, d0⟩ := q0
    obtain ⟨q, hq, hreg⟩ := hmiss
    rcases hr0 : reg n0 with _ | ctor
    · refine ⟨"Component in input data: " ++ n0 ++ " is not in type index!", ?_⟩
      simp only [buildComponents, hr0]
    · rcases List.mem_cons.mp hq with rfl | hq'
      · rw [hr0] at hreg
        exact Option.noConfusion hreg
      · obtain ⟨msg, hmsg⟩ := ih ⟨q, hq', hreg⟩
        refine ⟨msg, ?_⟩
        simp only [buildComponents, hr0, hmsg]
        rfl

theorem importEntities_error_of_missing (reg : Registry)
    (entries : List (Nat × List (String × Nat)))
    (hmiss : ∃ p ∈ entries, ∃ q ∈ (Prod.snd p : List (String × Nat)), reg q.1 = none) :
    ∀ (s : EntityManager) (h0 : Nat),
      ∃ msg, (importEntities reg entries s h0).2 = Except.error msg := by
  induction entries with
  | nil => obtain ⟨p, hp, _⟩ := hmiss; exact absurd hp (by simp)
  | cons p0 rest ih =>
    intro s h0
    obtain ⟨p, hp, hq⟩ := hmiss
    obtain ⟨id0, comps0⟩ := p0
    rcases hbc : buildComponents reg comps0 with msg | cs
    · exact ⟨msg, by simp only [importEntities, hbc]⟩
    · rcases List.mem_cons.mp hp with rfl | hp'
      · obtain ⟨q, hqm, hreg⟩ := hq
        obtain ⟨msg, hmsg⟩ := buildComponents_error_of_missing reg comps0 ⟨q, hqm, hreg⟩
        rw [hbc] at hmsg
        exact Except.noConfusion hmsg
      · obtain ⟨msg, hmsg⟩ := ih ⟨p, hp', hq⟩ (mcreateEntity s id0 cs).1 (max h0 id0)
        exact ⟨msg, by simp only [importEntities, hbc]; exact hmsg⟩

theorem importIndexes_error_of_missing (reg : Registry) (names : List String)
    (hmiss : ∃ n ∈ names, reg n = none) :
    ∀ s : EntityManager, ∃ msg, (importIndexes reg names s).2 = some msg := by
  induction names with
  | nil => obtain ⟨n, hn, _⟩ := hmiss; exact absurd hn (by simp)
  | cons n0 rest ih =>
    intro s
    obtain ⟨n, hn, hreg⟩ := hmiss
    rcases hr0 : reg n0 with _ | ctor
    · exact ⟨"Component to index by: " ++ n0 ++ " is not in type index!",
        by simp only [importIndexes, hr0]⟩
    · rcases List.mem_cons.mp hn with rfl | hn'
      · rw [hr0] at hreg
        exact Option.noConfusion hreg
      · rcases hib : indexBy s n0 with _ | p
        · exact ⟨"TypeError during index scan", by simp only [importIndexes, hr0, hib]⟩
        · obtain ⟨msg, hmsg⟩ := ih ⟨n, hn', hreg⟩ p.1
          exact ⟨msg, by simp only [importIndexes, hr0, hib]; exact hmsg⟩

theorem fromData_eq_error_entities (data : ECSData) (reg : Registry) (s s1 : EntityManager)
    (msg : String)
    (hie : importEntities reg data.entities (clearEM s) 0 = (s1, Except.error msg)) :
    fromData data reg s = (s1, Except.error msg) := by
  simp [fromData, hie]

theorem fromData_eq_error_index (data : ECSData) (reg : Registry) (s s1 : EntityManager)
    (highest : Nat) (s2x : EntityManager) (msg : String)
    (hie : importEntities reg data.entities (clearEM s) 0 = (s1, Except.ok highest))
    (hii : importIndexes reg data.indexed s1 = (s2x, some msg)) :
    fromData data reg s = (s2x, Except.error msg) := by
  simp [fromData, hie, hii]

theorem fromData_eq_ok (data : ECSData) (reg : Registry) (s s1 : EntityManager)
    (highest : Nat) (s2x : EntityManager)
    (hie : importEntities reg data.entities (clearEM s) 0 = (s1, Except.ok highest))
    (hii : importIndexes reg data.indexed s1 = (s2x, none)) :
    fromData data reg s = ({ s2x with currId := highest + 1 }, Except.ok highest) := by
  simp [fromData, hie, hii]

/-- C2 amended: when the data names a component type or an indexed type that
the registry lacks, the whole import fails with an error, and the result never
depends on the pre-import state (the manager is cleared first, so no
pre-import entities survive); however the manager may be left partially
populated with the entities imported before the failure. -/
theorem C2_import_fails_cleared (data : ECSData) (reg : Registry) (s s2 : EntityManager)
    (hmiss : (∃ p ∈ data.entities, ∃ q ∈ (Prod.snd p : List (String × Nat)),
        reg q.1 = none) ∨ ∃ n ∈ data.indexed, reg n = none) :
    fromData data reg s = fromData data reg s2 ∧
    ∃ msg, (fromData data reg s).2 = Except.error msg := by
  refine ⟨rfl, ?_⟩
  rcases hmiss with hent | hidx
  · obtain ⟨msg, hmsg⟩ := importEntities_error_of_missing reg data.entities hent (clearEM s) 0
    rcases hie : importEntities reg data.entities (clearEM s) 0 with ⟨s1, res⟩
    rw [hie] at hmsg
    cases res with
    | error m =>
      exact ⟨m, by rw [fromData_eq_error_entities data reg s s1 m hie]⟩
    | ok highest => exact absurd hmsg (by simp)
  · rcases hie : importEntities reg data.entities (clearEM s) 0 with ⟨s1, res⟩
    cases res with
    | error m =>
      refine ⟨m, ?_⟩
      rw [fromData_eq_error_entities data reg s s1 m hie]
    | ok highest =>
      obtain ⟨msg, hmsg⟩ := importIndexes_error_of_missing reg data.indexed hidx s1
      rcases hii : importIndexes reg data.indexed s1 with ⟨s2x, o⟩
      rw [hii] at hmsg
      obtain rfl : o = some msg := hmsg
      refine ⟨msg, ?_⟩
      rw [fromData_eq_error_index data reg s s1 highest s2x msg hie hii]

/-- C2 witness for the amended claim: a missing component type name makes
the import fail, and the result does not depend on the pre-populated
manager. -/
theorem C2_witness :
    ((∃ p ∈ ([(0, [("A", 5)]), (1, [("B", 6)])] : List (Nat × List (String × Nat))),
        ∃ q ∈ (Prod.snd p : List (String × Nat)),
          (fun n => if n = "A" then some (fun d => (⟨"A", d, "a"⟩ : Component)) else none)
            q.1 = none) ∨
      ∃ n ∈ ([] : List String),
        (fun n => if n = "A" then some (fun d => (⟨"A", d, "a"⟩ : Component)) else none) n =
          none) ∧
    fromData ⟨[], [(0, [("A", 5)]), (1, [("B", 6)])]⟩
        (fun n => if n = "A" then some (fun d => (⟨"A", d, "a"⟩ : Component)) else none)
        (EntityManager.mk 3 [(2, ⟨2, []⟩)] [] [] [] [] []) =
      fromData ⟨[], [(0, [("A", 5)]), (1, [("B", 6)])]⟩
        (fun n => if n = "A" then some (fun d => (⟨"A", d, "a"⟩ : Component)) else none)
        initEM ∧
    ∃ msg, (fromData ⟨[], [(0, [("A", 5)]), (1, [("B", 6)])]⟩
        (fun n => if n = "A" then some (fun d => (⟨"A", d, "a"⟩ : Component)) else none)
        (EntityManager.mk 3 [(2, ⟨2, []⟩)] [] [] [] [] [])).2 = Except.error msg := by
  have hmiss : (∃ p ∈ ([(0, [("A", 5)]), (1, [("B", 6)])] : List (Nat × List (String × Nat))),
      ∃ q ∈ (Prod.snd p : List (String × Nat)),
        (fun n => if n = "A" then some (fun d => (⟨"A", d, "a"⟩ : Component)) else none)
          q.1 = none) ∨
      ∃ n ∈ ([] : List String),
        (fun n => if n = "A" then some (fun d => (⟨"A", d, "a"⟩ : Component)) else none) n =
          none := by
    left
    exact ⟨(1, [("B", 6)]), by simp, ("B", 6), by simp, rfl⟩
  obtain ⟨heq, hmsg⟩ := C2_import_fails_cleared ⟨[], [(0, [("A", 5)]), (1, [("B", 6)])]⟩
    (fun n => if n = "A" then some (fun d => (⟨"A", d, "a"⟩ : Component)) else none)
    (EntityManager.mk 3 [(2, ⟨2, []⟩)] [] [] [] [] []) initEM hmiss
  exact ⟨hmiss, heq, hmsg⟩

/-- C2 counterexample: the claim that a failed import retains no partial state
is false — after importing data whose first entity has a registered type and
whose second does not, the error is raised with entity 0 already created, so
the manager is left populated with a strict subset of the imported entities. -/
theorem C2_counterexample :
    (fromData ⟨[], [(0, [("A", 5)]), (1, [("B", 6)])]⟩
        (fun n => if n = "A" then some (fun d => (⟨"A", d, "a"⟩ : Component)) else none)
        (EntityManager.mk 3 [(2, ⟨2, []⟩)] [] [] [] [] [])).2 =
      Except.error "Component in input data: B is not in type index!" ∧
    (fromData ⟨[], [(0, [("A", 5)]), (1, [("B", 6)])]⟩
        (fun n => if n = "A" then some (fun d => (⟨"A", d, "a"⟩ : Component)) else none)
        (EntityManager.mk 3 [(2, ⟨2, []⟩)] [] [] [] [] [])).1.entities =
      [(0, ⟨0, [⟨"A", 5, "a"⟩]⟩)] ∧
    (fromData ⟨[], [(0, [("A", 5)]), (1, [("B", 6)])]⟩
        (fun n => if n = "A" then some (fun d => (⟨"A", d, "a"⟩ : Component)) else none)
        (EntityManager.mk 3 [(2, ⟨2, []⟩)] [] [] [] [] [])).1.entities ≠ [] := by
  refine ⟨rfl, by decide, by decide⟩

/-- C9 witness: after creating and removing entity 0, a later create hands out
id 1, which was never live and exceeds the removed id. -/
theorem C9_witness :
    (List.Chain' (fun a b => a < b)
      (createdIds initEM [Op.create [], Op.removeEnt 0, Op.create []])) ∧
    ([Op.create [], Op.removeEnt 0, Op.create []] : List Op) =
      [Op.create [], Op.removeEnt 0] ++ Op.create [] :: [] ∧
    alookup (run initEM [Op.create [], Op.removeEnt 0]).entities
      ((createEntity (run initEM [Op.create [], Op.removeEnt 0]) []).2.1.id) = none ∧
    ([Op.create [], Op.removeEnt 0] : List Op) = [Op.create []] ++ [Op.removeEnt 0] ∧
    ∀ p ∈ (run initEM [Op.create []]).entities,
      p.1 < (createEntity (run initEM [Op.create [], Op.removeEnt 0]) []).2.1.id := by
  obtain ⟨hchain, hrest⟩ :=
    C9_ids_never_reused [Op.create [], Op.removeEnt 0, Op.create []]
  obtain ⟨hnone, hprev⟩ := hrest [Op.create [], Op.removeEnt 0] [] [] rfl
  exact ⟨hchain, rfl, hnone, rfl, hprev [Op.create []] [Op.removeEnt 0] rfl⟩

/-- C7: HashTable.remove(key, id) returns false and is a no-op when the digest
of the key has no bucket; otherwise it reports success, removes exactly the
membership of id in that bucket, and when the bucket is thereby emptied the
bucket is deleted entirely, so that afterwards has(key) is false, count(key)
is 0, and countKeys() counts one bucket fewer. -/
theorem C7_remove_empties_bucket (t : HashTable) (key : Component) (i : Nat)
    (hwf : HTWF t) :
    (alookup t.values key.hashv = none → t.remove key i = (t, false)) ∧
    (∀ b, alookup t.values key.hashv = some b →
      (t.remove key i).2 = true ∧
      (∀ d j, tblMem (t.remove key i).1 d j ↔ tblMem t d j ∧ ¬(d = key.hashv ∧ j = i)) ∧
      (b.erase i = [] →
        (t.remove key i).1.has key = false ∧
        (t.remove key i).1.count key = 0 ∧
        (t.remove key i).1.countKeys = t.countKeys - 1)) := by
  constructor
  · intro h
    exact remove_eq_of_none i h
  · intro b hb
    refine ⟨?_, tblMem_remove t key i hwf, ?_⟩
    · by_cases hemp : b.erase i = []
      · rw [remove_eq_of_emptied hb hemp]
      · rw [remove_eq_of_rest hb hemp]
    · intro hemp
      rw [remove_eq_of_emptied hb hemp]
      have hnone : alookup (aerase t.values key.hashv) key.hashv = none := by
        rw [alookup_aerase _ _ _ hwf.1, if_pos rfl]
      constructor
      · unfold HashTable.has
        rw [mk_values, hnone]
        rfl
      constructor
      · unfold HashTable.count HashTable.has
        rw [mk_values, hnone]
        rfl
      · unfold HashTable.countKeys
        rw [mk_values]
        exact length_aerase_of_mem (key_mem_of_alookup hb)

/-- C7 witness: removing the only member of a bucket deletes the bucket. -/
theorem C7_witness :
    HTWF (HashTable.mk [("1,1", [7])]) ∧
    ((HashTable.mk [("1,1", [7])]).remove ⟨"Position", 0, "1,1"⟩ 7).2 = true ∧
    ((HashTable.mk [("1,1", [7])]).remove ⟨"Position", 0, "1,1"⟩ 7).1.has
      ⟨"Position", 0, "1,1"⟩ = false ∧
    ((HashTable.mk [("1,1", [7])]).remove ⟨"Position", 0, "1,1"⟩ 7).1.count
      ⟨"Position", 0, "1,1"⟩ = 0 ∧
    ((HashTable.mk [("1,1", [7])]).remove ⟨"Position", 0, "1,1"⟩ 7).1.countKeys =
      (HashTable.mk [("1,1", [7])]).countKeys - 1 := by
  have hwf : HTWF (HashTable.mk [("1,1", [7])]) := by
    constructor
    · simp
    · intro p hp
      rw [List.mem_singleton] at hp
      subst hp
      simp
  obtain ⟨hret, _, hemp⟩ :=
    (C7_remove_empties_bucket (HashTable.mk [("1,1", [7])]) ⟨"Position", 0, "1,1"⟩ 7 hwf).2
      [7] rfl
  obtain ⟨hhas, hcount, hkeys⟩ := hemp rfl
  exact ⟨hwf, hret, hhas, hcount, hkeys⟩

/-- C6: removeComponent on an existing entity that does not hold the type
returns false, leaves the whole manager state unchanged, and emits no
notification on any channel. -/
theorem C6_removeComponent_absent_noop (s : EntityManager) (id : Nat) (t : String)
    (e : Entity) (hlk : alookup s.entities id = some e) (habs : e.hasType t = false) :
    removeComponent s id t true = Except.ok (s, false, []) := by
  have hgc : e.getComp t = none := by
    unfold Entity.hasType at habs
    exact Option.not_isSome_iff_eq_none.mp (by rw [habs]; exact Bool.false_ne_true)
  simp only [removeComponent, hlk, hgc]

/-- C6 witness: removing a type that is absent on a live entity is a no-op. -/
theorem C6_witness :
    alookup (EntityManager.mk 1 [(0, ⟨0, [⟨"A", 0, "a"⟩]⟩)] [] [("A", [0])] [] [0] ["B"]).entities
      0 = some ⟨0, [⟨"A", 0, "a"⟩]⟩ ∧
    (Entity.mk 0 [⟨"A", 0, "a"⟩]).hasType "B" = false ∧
    removeComponent (EntityManager.mk 1 [(0, ⟨0, [⟨"A", 0, "a"⟩]⟩)] [] [("A", [0])] [] [0] ["B"])
      0 "B" true =
      Except.ok ((EntityManager.mk 1 [(0, ⟨0, [⟨"A", 0, "a"⟩]⟩)] [] [("A", [0])] [] [0] ["B"]),
        false, []) := by
  refine ⟨by decide, by decide, ?_⟩
  exact C6_removeComponent_absent_noop _ 0 "B" ⟨0, [⟨"A", 0, "a"⟩]⟩ (by decide) (by decide)

/-- C10: when the name mapping still maps a name to an id whose entity has
been removed, getNamed(name) raises an error rather than returning a stale or
undefined entity, and removeNamed(name) returns false without changing the
state or notifying. -/
theorem C10_stale_name (s : EntityManager) (name : String) (id : Nat)
    (hmap : alookup s.entityNameMapping name = some id)
    (hgone : alookup s.entities id = none) :
    getNamed s name =
      Except.error "Named entity points at entity with id, which does not exist!" ∧
    removeNamed s name = (s, false, []) := by
  constructor
  · simp only [getNamed, hmap, hgone]
  · simp only [removeNamed, removeEntity, hmap, hgone]

theorem mem_setIntersect (w l : List Nat) (j : Nat) :
    j ∈ setIntersect w l ↔ j ∈ w ∧ j ∈ l := by
  unfold setIntersect
  rw [List.mem_filter]
  simp

theorem mem_foldl_setIntersect (ws : List (List Nat)) (w : List Nat) (j : Nat) :
    j ∈ ws.foldl setIntersect w ↔ j ∈ w ∧ ∀ l ∈ ws, j ∈ l := by
  induction ws generalizing w with
  | nil => simp
  | cons l ws ih =>
    rw [List.foldl_cons, ih, mem_setIntersect]
    constructor
    · rintro ⟨⟨hw, hl⟩, hall⟩
      refine ⟨hw, ?_⟩
      intro x hx
      rcases List.mem_cons.mp hx with rfl | hx'
      · exact hl
      · exact hall x hx'
    · rintro ⟨hw, hall⟩
      exact ⟨⟨hw, hall l (List.mem_cons_self _ _)⟩,
        fun x hx => hall x (List.mem_cons_of_mem _ hx)⟩

/-- C4: matchingIds computes exactly the intersection of the presence index
sets of the requested types: an id is in the result precisely when at least
one type was requested and every requested type has a presence entry
containing the id (so an empty request, a type with no presence entry at all,
and a type with an existing-but-empty presence set all give the empty
result); matching maps those same ids to the stored entities. -/
theorem C4_matching_intersection (s : EntityManager) (types : List String) (j : Nat) :
    (j ∈ matchingIds s types ↔
      types ≠ [] ∧ ∀ t ∈ types, ∃ l, alookup s.componentEntities t = some l ∧ j ∈ l) ∧
    matching s types = (matchingIds s types).map (fun i => alookup s.entities i) := by
  refine ⟨?_, rfl⟩
  by_cases hall : ∀ t ∈ types, (alookup s.componentEntities t).isSome = true
  · have hfil : types.filter (fun t => (alookup s.componentEntities t).isSome) = types :=
      List.filter_eq_self.mpr hall
    cases types with
    | nil =>
      simp [matchingIds]
    | cons t0 ts =>
      have hcond : ((((t0 :: ts).filter
          (fun t => (alookup s.componentEntities t).isSome)).map
          (fun t => (alookup s.componentEntities t).getD [])).length ≠ 0 ∧
          (((t0 :: ts).filter (fun t => (alookup s.componentEntities t).isSome)).map
          (fun t => (alookup s.componentEntities t).getD [])).length =
            (t0 :: ts).length) := by
        rw [hfil, List.length_map]
        exact ⟨by simp, rfl⟩
      unfold matchingIds
      rw [hfil]
      rw [if_pos (by rw [hfil] at hcond; exact hcond)]
      rw [List.map_cons]
      rw [mem_foldl_setIntersect]
      constructor
      · rintro ⟨h0, hrest⟩
        refine ⟨by simp, ?_⟩
        intro t ht
        have hs : (alookup s.componentEntities t).isSome = true := hall t ht
        rcases hlk : alookup s.componentEntities t with _ | lt
        · rw [hlk] at hs
          exact absurd hs (by simp)
        · refine ⟨lt, rfl, ?_⟩
          rcases List.mem_cons.mp ht with rfl | ht'
          · rw [hlk] at h0
            simpa using h0
          · have := hrest _ (List.mem_map.mpr ⟨t, ht', rfl⟩)
            rw [hlk] at this
            simpa using this
      · rintro ⟨_, hmem⟩
        constructor
        · obtain ⟨l, hl, hj⟩ := hmem t0 (List.mem_cons_self _ _)
          rw [hl]
          simpa using hj
        · intro x hx
          obtain ⟨t, ht, rfl⟩ := List.mem_map.mp hx
          obtain ⟨l, hl, hj⟩ := hmem t (List.mem_cons_of_mem _ ht)
          rw [hl]
          simpa using hj
  · push_neg at hall
    obtain ⟨t1, ht1, hnone⟩ := hall
    have hnone' : alookup s.componentEntities t1 = none := by
      rcases hl : alookup s.componentEntities t1 with _ | l
      · rfl
      · rw [hl] at hnone
        simp at hnone
    have hcond : ¬((((types.filter
        (fun t => (alookup s.componentEntities t).isSome)).map
        (fun t => (alookup s.componentEntities t).getD [])).length ≠ 0 ∧
        ((types.filter (fun t => (alookup s.componentEntities t).isSome)).map
        (fun t => (alookup s.componentEntities t).getD [])).length = types.length)) := by
      rintro ⟨_, hlen⟩
      rw [List.length_map] at hlen
      have heq : types.filter (fun t => (alookup s.componentEntities t).isSome) = types :=
        (List.filter_sublist types).eq_of_length hlen
      have : (alookup s.componentEntities t1).isSome = true := by
        have hmemf : t1 ∈ types.filter (fun t => (alookup s.componentEntities t).isSome) := by
          rw [heq]
          exact ht1
        exact (List.mem_filter.mp hmemf).2
      rw [hnone'] at this
      exact absurd this (by simp)
    unfold matchingIds
    rw [if_neg hcond]
    constructor
    · intro h
      exact absurd h (by simp)
    · rintro ⟨_, hmem⟩
      obtain ⟨l, hl, _⟩ := hmem t1 ht1
      rw [hnone'] at hl
      exact Option.noConfusion hl

/-- C8: when setComponent replaces an existing component of the same type on a
live entity, the uninstall of the old instance fires nothing: with a
subscriber registered on the entity channel and one on that component type
channel, the whole replace emits exactly one event per channel — the add event
carrying the new entity snapshot and the new component value — and no removal
event. -/
theorem C8_replace_notifies_once (s : EntityManager) (id : Nat) (c : Component)
    (e : Entity) (hlk : alookup s.entities id = some e)
    (hnodup : (e.comps.map Component.ctype).Nodup)
    (hhas : e.hasType c.ctype = true)
    (hereg : id ∈ s.entityRegistrations)
    (hcreg : c.ctype ∈ s.componentRegistrations) :
    ∃ e', (setComponent s id c).map Prod.snd =
        Except.ok [Event.entityEv id (some e'),
          Event.compEv c.ctype id (some e') (some c)] ∧
      (setComponent s id c).map (fun p => alookup (Prod.fst p).entities id) =
        Except.ok (some e') ∧
      e'.getComp c.ctype = some c := by
  obtain ⟨toRemove, hgc⟩ := Option.isSome_iff_exists.mp hhas
  have hfil : excludeComponents s id [c.ctype] =
      e.comps.filter (fun x => x.ctype ≠ c.ctype) :=
    excludeComponents_single s id c.ctype e hlk
  have hfilnd : ((e.comps.filter (fun x => x.ctype ≠ c.ctype)).map Component.ctype).Nodup :=
    List.Nodup.sublist (List.Sublist.map _ (List.filter_sublist _)) hnodup
  have he1 : Entity.ofList id (excludeComponents s id [c.ctype]) =
      ⟨id, e.comps.filter (fun x => x.ctype ≠ c.ctype)⟩ := by
    rw [hfil]
    exact ofList_eq id _ hfilnd
  set flt := e.comps.filter (fun x => x.ctype ≠ c.ctype) with hfltdef
  have hff : ((flt.map (fun x => (x.ctype, x))).filter
      (fun p => (Prod.snd p).ctype ∉ [c.ctype])).map Prod.snd = flt := by
    rw [filterMapSnd]
    apply List.filter_eq_self.mpr
    intro a ha
    exact (List.mem_filter.mp ha).2
  have hinner : ((e.comps.map (fun x => (x.ctype, x))).filter
      (fun p => (Prod.snd p).ctype ∉ [c.ctype])).map Prod.snd = flt :=
    filterMapSnd e.comps c.ctype
  have hflt1 : Entity.ofList id flt = ⟨id, flt⟩ := ofList_eq id flt hfilnd
  have hfltne : ∀ x ∈ flt, x.ctype ≠ c.ctype := by
    intro x hx
    exact of_decide_eq_true (List.mem_filter.mp hx).2
  have he2 : Entity.ofList id (flt ++ [c]) = ⟨id, flt ++ [c]⟩ := by
    apply ofList_eq
    rw [List.map_append]
    apply nodup_append_singleton hfilnd
    intro hmem
    obtain ⟨x, hx, hxc⟩ := List.mem_map.mp hmem
    exact hfltne x hx hxc
  refine ⟨⟨id, flt ++ [c]⟩, ?_, ?_, ?_⟩
  · simp only [setComponent, hlk, hhas, if_true, removeComponent, hgc,
      housekeepRemoveComponent, housekeepAddComponent, excludeComponents,
      Entity.allComponents, mkE_comps, alookup_aset, eq_self_iff_true, if_true,
      hinner, hflt1, hff, he2, Except.map]
    simp [hereg, hcreg]
  · simp only [setComponent, hlk, hhas, if_true, removeComponent, hgc,
      housekeepRemoveComponent, housekeepAddComponent, excludeComponents,
      Entity.allComponents, mkE_comps, alookup_aset, eq_self_iff_true, if_true,
      hinner, hflt1, hff, he2, Except.map]
  · unfold Entity.getComp
    rw [mkE_comps]
    exact findc_append_last flt c hfltne

/-- C8 witness: replacing a Position on a live, doubly-observed entity emits
exactly an entity event and a component add event, both carrying the new
snapshot. -/
theorem C8_witness :
    alookup (EntityManager.mk 1 [(0, ⟨0, [⟨"Position", 11, "1,1"⟩]⟩)] [] [("Position", [0])]
      [] [0] ["Position"]).entities 0 = some ⟨0, [⟨"Position", 11, "1,1"⟩]⟩ ∧
    ((Entity.mk 0 [⟨"Position", 11, "1,1"⟩]).comps.map Component.ctype).Nodup ∧
    (Entity.mk 0 [⟨"Position", 11, "1,1"⟩]).hasType "Position" = true ∧
    (0 ∈ (EntityManager.mk 1 [(0, ⟨0, [⟨"Position", 11, "1,1"⟩]⟩)] [] [("Position", [0])]
      [] [0] ["Position"]).entityRegistrations) ∧
    ("Position" ∈ (EntityManager.mk 1 [(0, ⟨0, [⟨"Position", 11, "1,1"⟩]⟩)] []
      [("Position", [0])] [] [0] ["Position"]).componentRegistrations) ∧
    ∃ e', (setComponent (EntityManager.mk 1 [(0, ⟨0, [⟨"Position", 11, "1,1"⟩]⟩)] []
        [("Position", [0])] [] [0] ["Position"]) 0 ⟨"Position", 22, "2,2"⟩).map Prod.snd =
        Except.ok [Event.entityEv 0 (some e'),
          Event.compEv "Position" 0 (some e') (some ⟨"Position", 22, "2,2"⟩)] ∧
      (setComponent (EntityManager.mk 1 [(0, ⟨0, [⟨"Position", 11, "1,1"⟩]⟩)] []
        [("Position", [0])] [] [0] ["Position"]) 0 ⟨"Position", 22, "2,2"⟩).map
          (fun p => alookup (Prod.fst p).entities 0) = Except.ok (some e') ∧
      e'.getComp "Position" = some ⟨"Position", 22, "2,2"⟩ :=
  ⟨by decide, by decide, by decide, by decide, by decide,
    C8_replace_notifies_once _ 0 ⟨"Position", 22, "2,2"⟩ ⟨0, [⟨"Position", 11, "1,1"⟩]⟩
      (by decide) (by decide) (by decide) (by decide) (by decide)⟩

/-- C10 witness: a stale alias makes getNamed fail and removeNamed return
false. -/
theorem C10_witness :
    alookup (EntityManager.mk 1 [] [("hero", 0)] [] [] [] []).entityNameMapping "hero" =
      some 0 ∧
    alookup (EntityManager.mk 1 [] [("hero", 0)] [] [] [] []).entities 0 = none ∧
    getNamed (EntityManager.mk 1 [] [("hero", 0)] [] [] [] []) "hero" =
      Except.error "Named entity points at entity with id, which does not exist!" ∧
    removeNamed (EntityManager.mk 1 [] [("hero", 0)] [] [] [] []) "hero" =
      ((EntityManager.mk 1 [] [("hero", 0)] [] [] [] []), false, []) := by
  refine ⟨by decide, by decide, ?_⟩
  exact C10_stale_name _ "hero" 0 (by decide) (by decide)

end RadEcs
